import Mathlib

/-!
Verification of the tiled streaming reduction engine of the eo-tools
repository: the tile generator (`src/tiling.py`), the temporal statistics
kernel (`eotools/bulk_stats.py`) and the tiled output writer
(`src/tiling.py`, class `TiledOutput`).

The Python source is shallowly embedded: integer quantities become `ℤ`/`ℕ`,
floating point sample values become exact rationals extended with a NaN
element (the kernel's observable behaviour on the inputs considered here is
exact: no rounding or overflow is involved in the claims), fallible
operations return `Except String`.
-/

deriving instance DecidableEq for Except

namespace EoTools

/-! ## Tiling: embedding of `generate_tiles` (src/src/tiling.py)

`generate_tiles(samples, lines, xtile, ytile)` builds
`xstart = numpy.arange(0, samples, xtile)` and
`ystart = numpy.arange(0, lines, ytile)` and then produces, for each
`ystep` in `ystart` and `xstep` in `xstart`, the tile
`((ystep, yend), (xstep, xend))` with
`yend = ystep + ytile if ystep + ytile < lines else lines` (likewise for x).
The `generator=True`/`False` switch only chooses between a lazy generator
and a list holding the same tuples in the same order; the list form is
embedded. -/

/-- Number of elements of `numpy.arange(0, stop, step)` for integer
`stop`, `step` with `step ≠ 0`: `max(0, ceil(stop / step))`. -/
def arangeLen (stop step : ℤ) : ℕ :=
  if 0 < step then (stop.toNat + step.toNat - 1) / step.toNat
  else ((-stop).toNat + (-step).toNat - 1) / (-step).toNat

/-- `numpy.arange(0, stop, step)` on integers: raises `ZeroDivisionError`
when `step = 0`, otherwise yields `0, step, 2*step, ...` with
`arangeLen stop step` elements. -/
def arange (stop step : ℤ) : Except String (List ℤ) :=
  if step = 0 then .error "ZeroDivisionError"
  else .ok ((List.range (arangeLen stop step)).map (fun i : ℕ => (i : ℤ) * step))

/-- A tile `((ystart, yend), (xstart, xend))` as produced by
`generate_tiles`. -/
structure Tile where
  ystart : ℤ
  yend : ℤ
  xstart : ℤ
  xend : ℤ
deriving DecidableEq

/-- The nested loop of `tiles_list` / `tiles_generator`: for each `ystep`
in `ys` and each `xstep` in `xs`, emit the clipped tile. -/
def tilesList (samples lines xtile ytile : ℤ) (xs ys : List ℤ) : List Tile :=
  ys.flatMap (fun ystep =>
    xs.map (fun xstep =>
      { ystart := ystep
        yend := if ystep + ytile < lines then ystep + ytile else lines
        xstart := xstep
        xend := if xstep + xtile < samples then xstep + xtile else samples }))

/-- `generate_tiles(samples, lines, xtile, ytile, generator=False)`.
The two `arange` calls happen before any tile is produced, so a zero tile
size raises immediately. -/
def generate_tiles (samples lines xtile ytile : ℤ) : Except String (List Tile) := do
  let xs ← arange samples xtile
  let ys ← arange lines ytile
  return tilesList samples lines xtile ytile xs ys

/-- Pixel `(r, c)` lies in tile `t` (half-open intervals). -/
def Tile.containsPix (t : Tile) (r c : ℤ) : Prop :=
  t.ystart ≤ r ∧ r < t.yend ∧ t.xstart ≤ c ∧ c < t.xend

instance (t : Tile) (r c : ℤ) : Decidable (t.containsPix r c) := by
  unfold Tile.containsPix; infer_instance

/-! ### Arithmetic helpers for the tiling proofs -/

theorem arangeLen_lt_iff {stop step : ℤ} (hstep : 0 < step) (hstop : 0 ≤ stop)
    (i : ℕ) : i < arangeLen stop step ↔ (i : ℤ) * step < stop := by
  have hT : 0 < step.toNat := by omega
  have hcast : ((step.toNat : ℤ)) = step := by omega
  have hcast2 : ((stop.toNat : ℤ)) = stop := by omega
  unfold arangeLen
  rw [if_pos hstep]
  constructor
  · intro h
    have h1 : i + 1 ≤ (stop.toNat + step.toNat - 1) / step.toNat := h
    rw [Nat.le_div_iff_mul_le hT] at h1
    have h2 : i * step.toNat < stop.toNat := by
      have := h1
      rw [Nat.succ_mul] at this
      omega
    have h3 : ((i * step.toNat : ℕ) : ℤ) < ((stop.toNat : ℕ) : ℤ) := by
      exact_mod_cast h2
    push_cast at h3
    rw [hcast, hcast2] at h3
    exact h3
  · intro h
    have h2 : i * step.toNat < stop.toNat := by
      have h3 : ((i : ℤ)) * (step.toNat : ℤ) < (stop.toNat : ℤ) := by
        rw [hcast, hcast2]; exact h
      exact_mod_cast h3
    show i + 1 ≤ (stop.toNat + step.toNat - 1) / step.toNat
    rw [Nat.le_div_iff_mul_le hT, Nat.succ_mul]
    omega

/-- Within a 1D band decomposition with step `t ≥ 1`, the band index
containing a coordinate is unique. -/
theorem band_index_unique {t : ℤ} (ht : 1 ≤ t) {i j : ℕ} {r : ℤ}
    (hi1 : (i : ℤ) * t ≤ r) (hi2 : r < (i : ℤ) * t + t)
    (hj1 : (j : ℤ) * t ≤ r) (hj2 : r < (j : ℤ) * t + t) : i = j := by
  by_contra hne
  rcases Nat.lt_or_ge i j with h | h
  · have : (i : ℤ) + 1 ≤ (j : ℤ) := by exact_mod_cast h
    have hm : ((i : ℤ) + 1) * t ≤ (j : ℤ) * t :=
      mul_le_mul_of_nonneg_right this (by omega)
    nlinarith
  · have hlt : j < i := by omega
    have : (j : ℤ) + 1 ≤ (i : ℤ) := by exact_mod_cast hlt
    have hm : ((j : ℤ) + 1) * t ≤ (i : ℤ) * t :=
      mul_le_mul_of_nonneg_right this (by omega)
    nlinarith

/-- The band index `⌊r / t⌋` of coordinate `r` really brackets `r`. -/
theorem band_index_covers {t L r : ℤ} (ht : 1 ≤ t) (hr0 : 0 ≤ r) (_hrL : r < L) :
    ((r / t).toNat : ℤ) * t ≤ r ∧ r < ((r / t).toNat : ℤ) * t + t := by
  have hpos : (0 : ℤ) < t := by omega
  have hdiv0 : 0 ≤ r / t := Int.ediv_nonneg hr0 (by omega)
  have hcast : ((r / t).toNat : ℤ) = r / t := by omega
  rw [hcast]
  constructor
  · exact Int.ediv_mul_le r (by omega)
  · have := Int.lt_ediv_add_one_mul_self r hpos
    nlinarith

theorem tilesList_length (samples lines xtile ytile : ℤ) (xs : List ℤ) :
    ∀ ys : List ℤ,
      (tilesList samples lines xtile ytile xs ys).length = ys.length * xs.length
  | [] => by simp [tilesList]
  | y :: ys => by
      have ih := tilesList_length samples lines xtile ytile xs ys
      simp only [tilesList, List.flatMap_cons, List.length_append,
        List.length_map] at *
      rw [ih, List.length_cons]
      ring

theorem mem_tilesList {samples lines xtile ytile : ℤ} {xs ys : List ℤ} {t : Tile} :
    t ∈ tilesList samples lines xtile ytile xs ys ↔
      ∃ ystep ∈ ys, ∃ xstep ∈ xs,
        t = { ystart := ystep
              yend := if ystep + ytile < lines then ystep + ytile else lines
              xstart := xstep
              xend := if xstep + xtile < samples then xstep + xtile else samples } := by
  simp only [tilesList, List.mem_flatMap, List.mem_map]
  constructor
  · rintro ⟨y, hy, x, hx, rfl⟩
    exact ⟨y, hy, x, hx, rfl⟩
  · rintro ⟨y, hy, x, hx, rfl⟩
    exact ⟨y, hy, x, hx, rfl⟩

theorem arange_ok {stop step : ℤ} (h : step ≠ 0) :
    arange stop step =
      .ok ((List.range (arangeLen stop step)).map (fun i : ℕ => (i : ℤ) * step)) := by
  unfold arange
  rw [if_neg h]

theorem generate_tiles_pos_eq {samples lines xtile ytile : ℤ}
    (hx : 1 ≤ xtile) (hy : 1 ≤ ytile) :
    generate_tiles samples lines xtile ytile =
      .ok (tilesList samples lines xtile ytile
        ((List.range (arangeLen samples xtile)).map (fun i : ℕ => (i : ℤ) * xtile))
        ((List.range (arangeLen lines ytile)).map (fun i : ℕ => (i : ℤ) * ytile))) := by
  have hx0 : xtile ≠ 0 := by omega
  have hy0 : ytile ≠ 0 := by omega
  unfold generate_tiles
  rw [arange_ok hx0, arange_ok hy0]
  rfl

/-- C1: for positive raster and tile dimensions, `generate_tiles` returns a
row-major partition of the raster: the tile count is
`ceil(lines/ytile) * ceil(samples/xtile)`, each end offset equals
`min(start + tile_size, total_dimension)`, distinct tiles are disjoint, and
every pixel of `[0,lines) × [0,samples)` lies in some tile. -/
theorem C1_generate_tiles_partition (samples lines xtile ytile : ℤ)
    (hs : 1 ≤ samples) (hl : 1 ≤ lines) (hx : 1 ≤ xtile) (hy : 1 ≤ ytile) :
    ∃ ts, generate_tiles samples lines xtile ytile = .ok ts ∧
      ts.length = ((lines.toNat + ytile.toNat - 1) / ytile.toNat) *
        ((samples.toNat + xtile.toNat - 1) / xtile.toNat) ∧
      (∀ t ∈ ts, t.yend = min (t.ystart + ytile) lines ∧
        t.xend = min (t.xstart + xtile) samples) ∧
      (∀ t1 ∈ ts, ∀ t2 ∈ ts, t1 ≠ t2 → ∀ r c : ℤ,
        ¬(t1.containsPix r c ∧ t2.containsPix r c)) ∧
      (∀ r c : ℤ, 0 ≤ r → r < lines → 0 ≤ c → c < samples →
        ∃ t ∈ ts, t.containsPix r c) := by
  refine ⟨_, generate_tiles_pos_eq hx hy, ?_, ?_, ?_, ?_⟩
  · rw [tilesList_length, List.length_map, List.length_range,
      List.length_map, List.length_range]
    unfold arangeLen
    rw [if_pos (show (0:ℤ) < ytile by omega), if_pos (show (0:ℤ) < xtile by omega)]
  · intro t ht
    rw [mem_tilesList] at ht
    obtain ⟨y, _, x, _, rfl⟩ := ht
    constructor
    · by_cases h : y + ytile < lines
      · simp only [if_pos h]; omega
      · simp only [if_neg h]; omega
    · by_cases h : x + xtile < samples
      · simp only [if_pos h]; omega
      · simp only [if_neg h]; omega
  · intro t1 ht1 t2 ht2 hne r c ⟨hc1, hc2⟩
    rw [mem_tilesList] at ht1 ht2
    obtain ⟨y1, hy1, x1, hx1, rfl⟩ := ht1
    obtain ⟨y2, hy2, x2, hx2, rfl⟩ := ht2
    simp only [List.mem_map, List.mem_range] at hy1 hy2 hx1 hx2
    obtain ⟨i1, _, rfl⟩ := hy1
    obtain ⟨i2, _, rfl⟩ := hy2
    obtain ⟨j1, _, rfl⟩ := hx1
    obtain ⟨j2, _, rfl⟩ := hx2
    obtain ⟨hr1a, hr1b, hcc1a, hcc1b⟩ := hc1
    obtain ⟨hr2a, hr2b, hcc2a, hcc2b⟩ := hc2
    simp only at hr1a hr1b hcc1a hcc1b hr2a hr2b hcc2a hcc2b
    have hi : i1 = i2 := by
      apply band_index_unique hy hr1a ?_ hr2a ?_
      · by_cases h : (i1 : ℤ) * ytile + ytile < lines
        · simp only [if_pos h] at hr1b; omega
        · simp only [if_neg h] at hr1b; omega
      · by_cases h : (i2 : ℤ) * ytile + ytile < lines
        · simp only [if_pos h] at hr2b; omega
        · simp only [if_neg h] at hr2b; omega
    have hj : j1 = j2 := by
      apply band_index_unique hx hcc1a ?_ hcc2a ?_
      · by_cases h : (j1 : ℤ) * xtile + xtile < samples
        · simp only [if_pos h] at hcc1b; omega
        · simp only [if_neg h] at hcc1b; omega
      · by_cases h : (j2 : ℤ) * xtile + xtile < samples
        · simp only [if_pos h] at hcc2b; omega
        · simp only [if_neg h] at hcc2b; omega
    subst hi; subst hj
    exact hne rfl
  · intro r c hr0 hrL hc0 hcL
    obtain ⟨hyb1, hyb2⟩ := band_index_covers hy hr0 hrL
    obtain ⟨hxb1, hxb2⟩ := band_index_covers hx hc0 hcL
    refine ⟨_, mem_tilesList.mpr
      ⟨((r / ytile).toNat : ℤ) * ytile, ?_, ((c / xtile).toNat : ℤ) * xtile, ?_, rfl⟩, ?_⟩
    · simp only [List.mem_map, List.mem_range]
      refine ⟨(r / ytile).toNat, ?_, rfl⟩
      rw [arangeLen_lt_iff (by omega) (by omega)]
      omega
    · simp only [List.mem_map, List.mem_range]
      refine ⟨(c / xtile).toNat, ?_, rfl⟩
      rw [arangeLen_lt_iff (by omega) (by omega)]
      omega
    · refine ⟨hyb1, ?_, hxb1, ?_⟩
      · by_cases h : ((r / ytile).toNat : ℤ) * ytile + ytile < lines
        · simp only [if_pos h]; omega
        · simp only [if_neg h]; omega
      · by_cases h : ((c / xtile).toNat : ℤ) * xtile + xtile < samples
        · simp only [if_pos h]; omega
        · simp only [if_neg h]; omega

/-- C1 witness: the spec's concrete scenario, a 1000×750 raster tiled
400×300, is a partition with ceil(750/300) * ceil(1000/400) = 3*3 = 9 tiles. -/
theorem C1_generate_tiles_partition_witness :
    ((1:ℤ) ≤ 1000 ∧ (1:ℤ) ≤ 750 ∧ (1:ℤ) ≤ 400 ∧ (1:ℤ) ≤ 300) ∧
      ∃ ts, generate_tiles 1000 750 400 300 = .ok ts ∧
        ts.length = (((750:ℤ).toNat + (300:ℤ).toNat - 1) / (300:ℤ).toNat) *
          (((1000:ℤ).toNat + (400:ℤ).toNat - 1) / (400:ℤ).toNat) ∧
        (∀ t ∈ ts, t.yend = min (t.ystart + 300) 750 ∧
          t.xend = min (t.xstart + 400) 1000) ∧
        (∀ t1 ∈ ts, ∀ t2 ∈ ts, t1 ≠ t2 → ∀ r c : ℤ,
          ¬(t1.containsPix r c ∧ t2.containsPix r c)) ∧
        (∀ r c : ℤ, 0 ≤ r → r < 750 → 0 ≤ c → c < 1000 →
          ∃ t ∈ ts, t.containsPix r c) :=
  ⟨⟨by norm_num, by norm_num, by norm_num, by norm_num⟩,
    C1_generate_tiles_partition 1000 750 400 300
      (by norm_num) (by norm_num) (by norm_num) (by norm_num)⟩

/-- C8 counterexample: the claim says every call with a dimension ≤ 0 fails
fast; but `generate_tiles(0, 5, 100, 100)` returns an (empty) sequence, not
an error, because `numpy.arange(0, 0, 100)` is simply empty. -/
theorem C8_counterexample :
    (∃ ts, generate_tiles 0 5 100 100 = .ok ts) ∧
      generate_tiles 0 5 100 100 = .ok [] := by
  constructor
  · exact ⟨[], by decide⟩
  · decide

/-- C8 (amended): `generate_tiles` fails fast (ZeroDivisionError inside
`numpy.arange`) exactly when a tile size is 0; for all positive inputs it
never fails; and a nonpositive total dimension (with positive tile sizes)
yields an empty tile sequence without error rather than failing. -/
theorem C8_generate_tiles_failure_modes :
    (∀ samples lines xtile ytile : ℤ, xtile = 0 ∨ ytile = 0 →
      ∃ e, generate_tiles samples lines xtile ytile = .error e) ∧
    (∀ samples lines xtile ytile : ℤ,
      1 ≤ samples → 1 ≤ lines → 1 ≤ xtile → 1 ≤ ytile →
      ∃ ts, generate_tiles samples lines xtile ytile = .ok ts) ∧
    (∀ samples lines xtile ytile : ℤ, 1 ≤ xtile → 1 ≤ ytile →
      (samples ≤ 0 ∨ lines ≤ 0) →
      generate_tiles samples lines xtile ytile = .ok []) := by
  refine ⟨?_, ?_, ?_⟩
  · intro samples lines xtile ytile h
    by_cases hx : xtile = 0
    · refine ⟨"ZeroDivisionError", ?_⟩
      unfold generate_tiles
      have : arange samples xtile = .error "ZeroDivisionError" := by
        unfold arange; rw [if_pos hx]
      rw [this]
      rfl
    · have hy : ytile = 0 := by tauto
      refine ⟨"ZeroDivisionError", ?_⟩
      unfold generate_tiles
      have h2 : arange lines ytile = .error "ZeroDivisionError" := by
        unfold arange; rw [if_pos hy]
      rw [arange_ok hx, h2]
      rfl
  · intro samples lines xtile ytile _ _ hx hy
    exact ⟨_, generate_tiles_pos_eq hx hy⟩
  · intro samples lines xtile ytile hx hy h
    rw [generate_tiles_pos_eq hx hy]
    rcases h with h | h
    · have hlen : arangeLen samples xtile = 0 := by
        unfold arangeLen
        rw [if_pos (show (0:ℤ) < xtile by omega)]
        have h1 : samples.toNat = 0 := by omega
        rw [h1]
        exact Nat.div_eq_of_lt (by omega)
      simp [hlen, tilesList]
    · have hlen : arangeLen lines ytile = 0 := by
        unfold arangeLen
        rw [if_pos (show (0:ℤ) < ytile by omega)]
        have h1 : lines.toNat = 0 := by omega
        rw [h1]
        exact Nat.div_eq_of_lt (by omega)
      simp [hlen, tilesList]

/-- C8 witness: a zero tile size does fail fast, and fully positive inputs
do succeed. -/
theorem C8_generate_tiles_failure_modes_witness :
    (((0:ℤ) = 0 ∨ (3:ℤ) = 0) ∧
      ∃ e, generate_tiles 5 5 0 3 = .error e) ∧
    (((1:ℤ) ≤ 5 ∧ (1:ℤ) ≤ 4 ∧ (1:ℤ) ≤ 2 ∧ (1:ℤ) ≤ 3) ∧
      ∃ ts, generate_tiles 5 4 2 3 = .ok ts) ∧
    (((1:ℤ) ≤ 2 ∧ (1:ℤ) ≤ 3 ∧ ((0:ℤ) ≤ 0 ∨ (7:ℤ) ≤ 0)) ∧
      generate_tiles 0 7 2 3 = .ok []) :=
  ⟨⟨Or.inl rfl, C8_generate_tiles_failure_modes.1 5 5 0 3 (Or.inl rfl)⟩,
    ⟨⟨by norm_num, by norm_num, by norm_num, by norm_num⟩,
      C8_generate_tiles_failure_modes.2.1 5 4 2 3
        (by norm_num) (by norm_num) (by norm_num) (by norm_num)⟩,
    ⟨⟨by norm_num, by norm_num, Or.inl le_rfl⟩,
      C8_generate_tiles_failure_modes.2.2 0 7 2 3
        (by norm_num) (by norm_num) (Or.inl le_rfl)⟩⟩

/-! ## Tiled output writer: embedding of `TiledOutput` (src/src/tiling.py)

Only the state and control flow of the class are modelled; the external
GDAL calls (`driver.Create`, `WriteArray`, `FlushCache`, ...) are treated
as an opaque write log.  `__init__` builds `self.out_bands`, a band-number
keyed table of raster band handles, and sets `self.closed = False`.
`write_tile(array, tile, raster_band)` checks `array.ndim ∈ {2, 3}` and
then subscripts `self.out_bands`; `close()` iterates over
`self.out_bands`, then sets `self.out_bands = None`, `self.outds = None`
and `self.closed = True`.  After `close`, `self.out_bands` is `None`, so
both `write_tile` (subscripting `None`) and a second `close` (iterating
`None`) raise a `TypeError`. -/

/-- A written tile as logged by `WriteArray`: band number, x/y start
offsets, and a tag for the array plane that was written. -/
structure WriteRec where
  band : ℕ
  xstart : ℤ
  ystart : ℤ
deriving DecidableEq

/-- Input array for `write_tile`: 2D plane or 3D stack; only the
dimensionality matters for the control flow modelled here. -/
inductive WArray where
  | a2 : WArray
  | a3 : WArray
  | aOther (ndim : ℕ) : WArray
deriving DecidableEq

/-- State of a `TiledOutput` writer.  `out_bands = none` models the Python
attribute having been set to `None` by `close`. -/
structure TiledOutput where
  bands : ℕ
  out_bands : Option (List WriteRec)
  closed : Bool
deriving DecidableEq

/-- `TiledOutput.__init__` with valid `samples`/`lines`: the band table is
populated and `closed` is `False`. -/
def TiledOutput.mkOpen (bands : ℕ) : TiledOutput :=
  { bands := bands, out_bands := some [], closed := false }

/-- `write_tile(array, tile, raster_band)`.  A non-2D/3D array raises
`TypeError`; otherwise each `WriteArray` call subscripts
`self.out_bands[band]`, which raises `TypeError` when `out_bands` is
`None` and `KeyError` when the band number is outside the keys
`1..bands` of the band table.  In the 3D case the loop body runs once per
declared band, so with zero declared bands nothing is subscripted and the
call returns silently even on a released table. -/
def TiledOutput.write_tile (s : TiledOutput) (array : WArray) (tile : Tile)
    (raster_band : Option ℕ) : Except String TiledOutput :=
  match array with
  | .aOther _ => .error "TypeError: Input array is not 2 or 3 dimensions."
  | .a3 =>
      if s.bands = 0 then
        -- `for i in range(self.bands)` with zero bands never subscripts
        .ok s
      else
        match s.out_bands with
        | none => .error "TypeError: NoneType object is not subscriptable"
        | some log =>
            let recs : List WriteRec :=
              (List.range s.bands).map (fun i => ⟨i + 1, tile.xstart, tile.ystart⟩)
            .ok { s with out_bands := some (log ++ recs) }
  | .a2 =>
      match s.out_bands with
      | none => .error "TypeError: NoneType object is not subscriptable"
      | some log =>
          let band := raster_band.getD 1
          if 1 ≤ band ∧ band ≤ s.bands then
            .ok { s with out_bands := some (log ++ [⟨band, tile.xstart, tile.ystart⟩]) }
          else .error "KeyError"

/-- `close()`: iterating `self.out_bands` raises `TypeError` when the table
is already `None`; otherwise the handles are released, `out_bands` becomes
`None` and `closed` becomes `True`. -/
def TiledOutput.close (s : TiledOutput) : Except String TiledOutput :=
  match s.out_bands with
  | none => .error "TypeError: NoneType object is not iterable"
  | some _ => .ok { s with out_bands := none, closed := true }

/-- C9 counterexample: the claim fails at the degenerate zero-band writer:
`__init__` accepts `bands=0` (building an empty band table), and after
`close()` a 3D `write_tile` runs `for i in range(0)` zero times — it
returns silently instead of failing with an error. -/
theorem C9_counterexample :
    (TiledOutput.mkOpen 0).close =
      .ok { bands := 0, out_bands := none, closed := true } ∧
    ({ bands := 0, out_bands := none, closed := true } : TiledOutput).write_tile
        WArray.a3 ⟨0, 1, 0, 1⟩ none =
      .ok { bands := 0, out_bands := none, closed := true } := by
  constructor
  · rfl
  · rfl

/-- C9 (amended): after a successful `close()`, the writer's `closed` flag
is `True` and every subsequent `write_tile` call on a writer with at least
one band fails with an error (subscripting the released `None` band table
raises `TypeError`) — it neither silently no-ops nor writes data; the sole
exception is a degenerate zero-band writer, whose 3D `write_tile` loop
body never runs, so the call silently no-ops. -/
theorem C9_write_after_close (s s' : TiledOutput)
    (h : s.close = .ok s') (hb : 1 ≤ s.bands) :
    s'.closed = true ∧
      ∀ (array : WArray) (tile : Tile) (raster_band : Option ℕ),
        ∃ e, s'.write_tile array tile raster_band = .error e := by
  unfold TiledOutput.close at h
  cases hob : s.out_bands with
  | none => rw [hob] at h; exact absurd h (by simp)
  | some log =>
      rw [hob] at h
      have hs' : s' = { s with out_bands := none, closed := true } := by
        cases h; rfl
      subst hs'
      refine ⟨rfl, ?_⟩
      intro array tile raster_band
      cases array with
      | aOther n => exact ⟨_, rfl⟩
      | a2 => exact ⟨_, rfl⟩
      | a3 =>
          refine ⟨"TypeError: NoneType object is not subscriptable", ?_⟩
          unfold TiledOutput.write_tile
          rw [if_neg (by simp only; omega)]

/-- C9 witness: a freshly opened 14-band writer, once closed, rejects all
writes. -/
theorem C9_write_after_close_witness :
    ((TiledOutput.mkOpen 14).close =
      .ok { bands := 14, out_bands := none, closed := true } ∧
      1 ≤ (TiledOutput.mkOpen 14).bands) ∧
    ({ bands := 14, out_bands := none, closed := true} : TiledOutput).closed = true ∧
      ∀ (array : WArray) (tile : Tile) (raster_band : Option ℕ),
        ∃ e, ({ bands := 14, out_bands := none, closed := true} :
          TiledOutput).write_tile array tile raster_band = .error e :=
  ⟨⟨rfl, by norm_num [TiledOutput.mkOpen]⟩,
    C9_write_after_close (TiledOutput.mkOpen 14) _ rfl
      (by norm_num [TiledOutput.mkOpen])⟩

/-- C10: `close` is not idempotent: a successful `close()` releases the
band table, and any further `close()` raises (iterating over `None`)
instead of being a no-op. -/
theorem C10_close_not_idempotent (s s' : TiledOutput) (h : s.close = .ok s') :
    s'.closed = true ∧ ∃ e, s'.close = .error e := by
  unfold TiledOutput.close at h
  cases hob : s.out_bands with
  | none => rw [hob] at h; exact absurd h (by simp)
  | some log =>
      rw [hob] at h
      have hs' : s' = { s with out_bands := none, closed := true } := by
        cases h; rfl
      subst hs'
      exact ⟨rfl, ⟨_, rfl⟩⟩

/-- C10 witness: closing a fresh writer twice raises on the second call. -/
theorem C10_close_not_idempotent_witness :
    ((TiledOutput.mkOpen 14).close =
      .ok { bands := 14, out_bands := none, closed := true }) ∧
    ({ bands := 14, out_bands := none, closed := true} : TiledOutput).closed = true ∧
      ∃ e, ({ bands := 14, out_bands := none, closed := true} :
        TiledOutput).close = .error e :=
  ⟨rfl, C10_close_not_idempotent (TiledOutput.mkOpen 14) _ rfl⟩

/-! ## Statistics kernel: embedding of `bulk_stats` (src/eotools/bulk_stats.py)

The kernel receives a 3D `[z, y, x]` cube (`bands` z-planes, `rows*cols`
pixels), optionally masks a no-data value, and fills 14 output planes per
pixel.  The embedding works on the C-order ravel of the cube.  Sample
values are NaN or finite and are modelled exactly (rationals): every
concrete scenario of the spec involves only exactly representable values
and the remaining claims concern NaN propagation and element selection,
which are rounding-independent.  Infinities do not occur among the
modelled inputs; `isfinite` treats them like NaN and the kernel's final
`stats[~isfinite(stats)] = nan` sweep normalizes any non-finite output to
NaN, which the operation models below fold in where noted.  `nansum`
follows the numpy semantics contemporary with this module (≤ 1.8): an
all-NaN slice sums to NaN.  The numexpr `/` on the int64 valid-count array
is floor division (the module does not import `division` from
`__future__`); every dividend involved is nonnegative. -/

/-- A floating-point sample value: NaN or an (exactly modelled) finite
value. -/
inductive F where
  | nan : F
  | fin (q : ℚ) : F
deriving DecidableEq

namespace F

/-- `numpy.isfinite` on the modelled values. -/
def isFin : F → Bool
  | nan => false
  | fin _ => true

/-- IEEE addition restricted to the modelled values: NaN propagates. -/
def add : F → F → F
  | fin p, fin q => fin (p + q)
  | _, _ => nan

/-- IEEE subtraction: NaN propagates. -/
def sub : F → F → F
  | fin p, fin q => fin (p - q)
  | _, _ => nan

/-- IEEE multiplication on finite values: NaN propagates. -/
def mul : F → F → F
  | fin p, fin q => fin (p * q)
  | _, _ => nan

/-- IEEE division with the kernel's closing non-finite → NaN sweep folded
in: NaN operands give NaN; a zero divisor gives 0/0 = NaN or ±inf, and the
kernel normalizes any such non-finite output plane to NaN (no intermediate
of the kernel feeds a nonzero-over-zero quotient into a later computation:
the only zero divisors that arise are `mean = NaN/0` with `n = 0` and
`variance = 0/0` with `n = 1`). -/
def div : F → F → F
  | fin p, fin q => if q = 0 then nan else fin (p / q)
  | _, _ => nan

/-- The comparison used by numpy's float sort: finite values compare by ≤
and every finite value precedes NaN. -/
def leB : F → F → Bool
  | _, nan => true
  | nan, fin _ => false
  | fin p, fin q => decide (p ≤ q)

/-- `leB` as a relation, for `List.insertionSort`. -/
def le (a b : F) : Prop := leB a b = true

instance : DecidableRel F.le := fun a b => by unfold le; infer_instance

instance : IsTotal F F.le := by
  constructor
  intro a b
  cases a <;> cases b <;> simp [le, leB]
  exact le_total _ _

instance : IsTrans F F.le := by
  constructor
  intro a b c hab hbc
  cases a <;> cases b <;> cases c <;> simp_all [le, leB]
  exact le_trans hab hbc

instance : IsAntisymm F F.le := by
  constructor
  intro a b hab hba
  cases a <;> cases b <;> simp_all [le, leB]
  exact le_antisymm hab hba

end F

/-- The finite (valid) values of a z-profile, in observation order. -/
def finVals (l : List F) : List ℚ :=
  l.filterMap (fun x => match x with | F.nan => none | F.fin q => some q)

/-- `vld_obsv = numpy.sum(numpy.isfinite(array), axis=z)` per pixel. -/
def vldCount (l : List F) : ℕ := (l.filter F.isFin).length

/-- `numpy.nansum(·, axis=z)` per pixel, numpy ≤ 1.8 semantics: NaN terms
are skipped, an all-NaN (or empty) slice sums to NaN. -/
def nansum (l : List F) : F :=
  match finVals l with
  | [] => F.nan
  | q :: qs => F.fin (q + qs.sum)

/-- `numpy.nanmax(·, axis=z)` per pixel: NaN iff no valid value. -/
def nanmax (l : List F) : F :=
  match finVals l with
  | [] => F.nan
  | q :: qs => F.fin (qs.foldl max q)

/-- `numpy.nanmin(·, axis=z)` per pixel: NaN iff no valid value. -/
def nanmin (l : List F) : F :=
  match finVals l with
  | [] => F.nan
  | q :: qs => F.fin (qs.foldl min q)

/-- `numpy.sort` along z: ascending with NaN after every finite value. -/
def sortObs (l : List F) : List F := List.insertionSort F.le l

/-- The ordering behind `numpy.argsort` along z, modelled stably: indices
compare by value (NaN last) and, between equal-ranked values, by index.
(numpy's default quicksort may permute equal values; no claim settled here
depends on the tie order between distinct equal-valued observations.) -/
def argLe (l : List F) (i j : ℕ) : Prop :=
  (F.le (l.getD i F.nan) (l.getD j F.nan) ∧ ¬ F.le (l.getD j F.nan) (l.getD i F.nan)) ∨
    (F.le (l.getD i F.nan) (l.getD j F.nan) ∧ F.le (l.getD j F.nan) (l.getD i F.nan) ∧ i ≤ j)

instance (l : List F) : DecidableRel (argLe l) := fun i j => by
  unfold argLe; infer_instance

/-- `numpy.argsort` along z: the observation indices of the sorted order. -/
def argsortIdx (l : List F) : List ℕ :=
  List.insertionSort (argLe l) (List.range l.length)

/-- The z-profile of the pixel with flat spatial offset `a` (`a = r*cols + c`)
in a z-major, C-order ravelled cube with `bands` z-planes and `P` pixels:
element `k` is `data[k*P + a]`. -/
def pixelObs (bands P : ℕ) (data : List F) (a : ℕ) : List F :=
  (List.range bands).map (fun k => data.getD (k * P + a) F.nan)

/-- C-order ravel of a per-pixel z-family in the `[z, y, x]` layout: flat
position `i = k*P + a` holds `g a k` (pixel `a = i % P`, z-index
`k = i / P`). -/
def ravelBsq (bands P : ℕ) (g : ℕ → ℕ → F) : List F :=
  (List.range (bands * P)).map (fun i => g (i % P) (i / P))

/-- C-order ravel in the transposed `[y, x, z]` layout: flat position
`i = a*bands + k` holds `g a k` (pixel `a = i / bands`, z-index
`k = i % bands`). -/
def ravelBip (bands P : ℕ) (g : ℕ → ℕ → F) : List F :=
  (List.range (bands * P)).map (fun i => g (i / bands) (i % bands))

/-- `numpy.sort(array, axis=0).ravel()` (the `[z,y,x]` path): flat position
`k*P + a` holds the k-th sorted observation of pixel `a`. -/
def flatSortBsq (bands P : ℕ) (data : List F) : List F :=
  ravelBsq bands P (fun a k => (sortObs (pixelObs bands P data a)).getD k F.nan)

/-- `numpy.sort(array_bip, axis=2).ravel()` (the transposed `[y,x,z]`
path): flat position `a*bands + k` holds the k-th sorted observation of
pixel `a`. -/
def flatSortBip (bands P : ℕ) (data : List F) : List F :=
  ravelBip bands P (fun a k => (sortObs (pixelObs bands P data a)).getD k F.nan)

/-- `numpy.argsort(array, axis=0).ravel()`, stored into a float plane. -/
def flatArgBsq (bands P : ℕ) (data : List F) : List F :=
  ravelBsq bands P
    (fun a k => F.fin (((argsortIdx (pixelObs bands P data a)).getD k 0 : ℕ) : ℚ))

/-- `numpy.argsort(array_bip, axis=2).ravel()`, stored into a float plane. -/
def flatArgBip (bands P : ℕ) (data : List F) : List F :=
  ravelBip bands P
    (fun a k => F.fin (((argsortIdx (pixelObs bands P data a)).getD k 0 : ℕ) : ℚ))

/-- numpy fancy indexing of a 1D array at a (possibly negative) integer
index: indices in `[-N, N)` are valid, negative ones counting from the
end; anything else raises `IndexError`. -/
def npGet (l : List F) (i : ℤ) : Except String F :=
  if 0 ≤ i ∧ i < (l.length : ℤ) then .ok (l.getD i.toNat F.nan)
  else if -(l.length : ℤ) ≤ i ∧ i < 0 then .ok (l.getD (i + l.length).toNat F.nan)
  else .error "IndexError"

/-- `q2_idx = vld_obsv / 2 + (vld_obsv % 2 - 1)` (floor division). -/
def q2Rank (n : ℕ) : ℤ := (n : ℤ) / 2 + ((n : ℤ) % 2 - 1)

/-- `length = q2_idx + 1; q1_idx = length / 2 + (length % 2 - 1)`. -/
def q1Rank (n : ℕ) : ℤ := (q2Rank n + 1) / 2 + ((q2Rank n + 1) % 2 - 1)

/-- stats[4] = `sqrt(variance)`: `sqrtVal v` stands for the real value √v;
NaN propagates, and a negative operand (which cannot arise: the variance
is a sum of squares over a positive divisor) would give NaN. -/
inductive SF where
  | nan : SF
  | sqrtVal (v : ℚ) : SF
deriving DecidableEq

/-- stats[5] (skewness): `val s3 v n` stands for the real value
`s3 / (n * v^(3/2))` with `s3` the sum of cubed residuals over the valid
observations, `v > 0` the variance and `n` the valid count. -/
inductive KF where
  | nan : KF
  | val (s3 v : ℚ) (n : ℕ) : KF
deriving DecidableEq

/-- stats[13] (geometric mean): `val p n` stands for the real value
`p^(1/n)` with `p` the product of the `n ≥ 1` valid values (and `p ≥ 0`
when `n ≥ 2`). -/
inductive GF where
  | nan : GF
  | val (p : ℚ) (n : ℕ) : GF
deriving DecidableEq

/-- One pixel of the 14-plane output block, planes in the order
stats[0..13] of the source. -/
structure Stats where
  sum : F
  mean : F
  valid_count : F
  variance : F
  stddev : SF
  skewness : KF
  kurtosis : F
  max : F
  min : F
  median : F
  median_index : F
  q1 : F
  q3 : F
  geometric_mean : GF
deriving DecidableEq

instance : Inhabited Stats :=
  ⟨⟨F.nan, F.nan, F.nan, F.nan, SF.nan, KF.nan, F.nan, F.nan, F.nan, F.nan,
    F.nan, F.nan, F.nan, GF.nan⟩⟩

/-- stats[4] = `sqrt(var)`. -/
def stddevOf : F → SF
  | F.nan => SF.nan
  | F.fin v => if v < 0 then SF.nan else SF.sqrtVal v

/-- stats[5] = `nansum((residuals/stddev)**3, axis=z) / vld_obsv`.
When the variance is NaN every term is NaN, and when it is 0 every valid
residual is 0 so every term is 0/0 = NaN; either way the all-NaN nansum is
NaN.  Otherwise each finite-residual term is `r^3 / v^(3/2)` and the plane
is `(Σ r^3) / (n * v^(3/2))`, recorded symbolically. -/
def skewOf (residuals : List F) (variance : F) (n : ℕ) : KF :=
  match variance with
  | F.nan => KF.nan
  | F.fin v =>
      if v ≤ 0 then KF.nan
      else KF.val (((finVals residuals).map (fun r => r ^ 3)).sum) v n

/-- stats[6] = `nansum((residuals/stddev)**4, axis=z) / vld_obsv - 3`.
Each finite-residual term is `r^4 / v^2`, an exactly rational quantity;
NaN cases as for the skewness. -/
def kurtOf (residuals : List F) (variance : F) (n : ℕ) : F :=
  match variance with
  | F.nan => F.nan
  | F.fin v =>
      if v ≤ 0 then F.nan
      else F.fin ((((finVals residuals).map (fun r => r ^ 4)).sum) / v ^ 2 / (n : ℚ) - 3)

/-- stats[13]: non-finite elements are set to 1, the z-product is raised
to the power `1/vld_obsv`, pixels with `vld_obsv = 0` are overwritten with
NaN, and a negative product under a fractional exponent is NaN (numpy:
invalid power).  The remaining value `p^(1/n)` is recorded symbolically
(`p^(1/1) = p` exactly). -/
def geoOf (obs : List F) (n : ℕ) : GF :=
  if n = 0 then GF.nan
  else if (finVals obs).prod < 0 ∧ 2 ≤ n then GF.nan
  else GF.val (finVals obs).prod n

/-- The mask applied by `if no_data: wh = (array == no_data); array[wh] = nan`:
Python truthiness, so `no_data = None` and `no_data = 0` apply no mask, and
NaN elements never compare equal to the sentinel. -/
def maskData (no_data : Option ℚ) (data : List F) : List F :=
  match no_data with
  | none => data
  | some v =>
      if v = 0 then data
      else data.map (fun x => if x = F.fin v then F.nan else x)

/-- The caller's array after the call: the no-data mask and the geometric
mean step's `wh = ~isfinite(array); array[wh] = 1` mutate the input in
place, except that `double=True` rebinds `array` to a float64 copy first,
leaving the caller's array untouched. -/
def postData (no_data : Option ℚ) (double : Bool) (data : List F) : List F :=
  if double then data
  else (maskData no_data data).map (fun x => if x.isFin then x else F.fin 1)

/-- All 14 planes of one pixel, from the (already masked) cube `d`.
The reductions are per-pixel; the four order-statistic planes index the
flat sorted/argsorted arrays exactly as the source does
(`q2_idx * cols * rows + a_off` in the `[z,y,x]` layout,
`q2_idx + a_off * bands` in the transposed layout). -/
def pixelStatsCore (bands P : ℕ) (d : List F) (asBip : Bool) (a : ℕ) :
    Except String Stats := do
  let obs := pixelObs bands P d a
  let n := vldCount obs
  let sumv := nansum obs
  let meanv := sumv.div (F.fin (n : ℚ))
  let residuals := obs.map (fun x => x.sub meanv)
  let variance := (nansum (residuals.map (fun r => r.mul r))).div
    ((F.fin (n : ℚ)).sub (F.fin 1))
  let fsort := if asBip then flatSortBip bands P d else flatSortBsq bands P d
  let fargs := if asBip then flatArgBip bands P d else flatArgBsq bands P d
  let idx : ℤ → ℤ := fun q => if asBip then q + (a : ℤ) * bands else q * P + a
  let medianv ← npGet fsort (idx (q2Rank n))
  let medidx ← npGet fargs (idx (q2Rank n))
  let q1v ← npGet fsort (idx (q1Rank n))
  let q3v ← npGet fsort (idx (q2Rank n + q1Rank n))
  return { sum := sumv
           mean := meanv
           valid_count := F.fin (n : ℚ)
           variance := variance
           stddev := stddevOf variance
           skewness := skewOf residuals variance n
           kurtosis := kurtOf residuals variance n
           max := nanmax obs
           min := nanmin obs
           median := medianv
           median_index := medidx
           q1 := q1v
           q3 := q3v
           geometric_mean := geoOf obs n }

/-- Sequence per-pixel results; numpy's fancy indexing raises on the first
bad index, so the call errors iff some pixel's index is out of range. -/
def collect {α : Type} : List (Except String α) → Except String (List α)
  | [] => .ok []
  | x :: xs =>
      match x with
      | .error e => .error e
      | .ok v =>
          match collect xs with
          | .error e => .error e
          | .ok vs => .ok (v :: vs)

/-- `bulk_stats(array, no_data, double, as_bip)` on the C-order ravel of a
3D `[z, y, x]` cube.  Returns the final contents of the caller's array
(the kernel mutates its input in place unless `double` copies it) paired
with the per-pixel 14-plane statistics, pixel-major.  `double` selects
float32/float64; on the exactly-modelled values both evaluate identically,
so in the model it only determines whether the input is copied. -/
def bulk_stats (bands rows cols : ℕ) (data : List F) (no_data : Option ℚ)
    (double asBip : Bool) : Except String (List F × List Stats) :=
  let d := maskData no_data data
  match collect ((List.range (rows * cols)).map
    (fun a => pixelStatsCore bands (rows * cols) d asBip a)) with
  | .error e => .error e
  | .ok outs => .ok (postData no_data double data, outs)

/-! ### Supporting lemmas for the kernel -/

theorem F.le_any_nan (x : F) : F.le x F.nan := by cases x <;> rfl

theorem F.fin_le_fin {p q : ℚ} : F.le (F.fin p) (F.fin q) ↔ p ≤ q := by
  simp [F.le, F.leB]

theorem F.not_nan_le_fin (q : ℚ) : ¬ F.le F.nan (F.fin q) := by
  simp [F.le, F.leB]

theorem finVals_length (l : List F) : (finVals l).length = vldCount l := by
  induction l with
  | nil => rfl
  | cons x xs ih =>
      cases x <;> simp [finVals, vldCount, F.isFin, List.filter_cons] at * <;> omega

theorem finVals_eq_nil_iff {l : List F} : finVals l = [] ↔ ∀ x ∈ l, x = F.nan := by
  rw [finVals, List.filterMap_eq_nil_iff]
  constructor
  · intro h x hx
    have h2 := h x hx
    cases x with
    | nan => rfl
    | fin q => simp at h2
  · intro h x hx
    rw [h x hx]

theorem vldCount_eq_zero_iff {l : List F} : vldCount l = 0 ↔ ∀ x ∈ l, x = F.nan := by
  rw [← finVals_length, List.length_eq_zero]
  exact finVals_eq_nil_iff

theorem vldCount_le_length (l : List F) : vldCount l ≤ l.length :=
  List.length_filter_le _ _

/-- The valid values of a pixel, sorted ascending. -/
def sortValids (l : List F) : List ℚ := List.insertionSort (· ≤ ·) (finVals l)

theorem sortValids_length (l : List F) : (sortValids l).length = vldCount l := by
  rw [sortValids, List.length_insertionSort, finVals_length]

theorem sortValids_perm (l : List F) : (sortValids l).Perm (finVals l) :=
  List.perm_insertionSort _ _

theorem filter_isFin_eq (l : List F) : l.filter F.isFin = (finVals l).map F.fin := by
  induction l with
  | nil => rfl
  | cons x xs ih => cases x <;> simp [finVals, F.isFin, List.filter_cons, ih]

theorem length_filter_not_isFin (l : List F) :
    (l.filter (fun x => !F.isFin x)).length = l.length - vldCount l := by
  induction l with
  | nil => rfl
  | cons x xs ih =>
      have h := vldCount_le_length xs
      cases x <;>
        simp [vldCount, F.isFin, List.filter_cons, List.length_cons] at * <;>
        omega

theorem filter_not_isFin_eq (l : List F) :
    l.filter (fun x => !F.isFin x) = List.replicate (l.length - vldCount l) F.nan := by
  have hmem : ∀ x ∈ l.filter (fun x => !F.isFin x), x = F.nan := by
    intro x hx
    rw [List.mem_filter] at hx
    cases x with
    | nan => rfl
    | fin q => simp [F.isFin] at hx
  have h := List.eq_replicate_of_mem hmem
  rw [h, length_filter_not_isFin]

/-- `numpy.sort` of a z-profile: the valid values ascending, then the NaNs. -/
theorem sortObs_eq (l : List F) :
    sortObs l = (sortValids l).map F.fin ++
      List.replicate (l.length - vldCount l) F.nan := by
  apply List.eq_of_perm_of_sorted (r := F.le)
  · refine (List.perm_insertionSort _ _).trans ?_
    refine ((List.filter_append_perm F.isFin l).symm).trans ?_
    rw [filter_isFin_eq, filter_not_isFin_eq]
    exact List.Perm.append_right _ ((sortValids_perm l).symm.map F.fin)
  · exact List.sorted_insertionSort _ _
  · show List.Pairwise _ _
    rw [List.pairwise_append]
    refine ⟨?_, ?_, ?_⟩
    · exact List.Pairwise.map F.fin (fun a b h => F.fin_le_fin.mpr h)
        (List.sorted_insertionSort _ _)
    · exact List.pairwise_replicate.mpr (Or.inr (F.le_any_nan _))
    · intro x hx y hy
      rw [List.eq_of_mem_replicate hy]
      exact F.le_any_nan x

theorem nansum_of_nil {l : List F} (h : finVals l = []) : nansum l = F.nan := by
  unfold nansum
  rw [h]

theorem getD_all_nan {l : List F} (h : ∀ x ∈ l, x = F.nan) (k : ℕ) :
    l.getD k F.nan = F.nan := by
  rcases Nat.lt_or_ge k l.length with hk | hk
  · rw [List.getD_eq_getElem _ _ hk]
    exact h _ (List.getElem_mem hk)
  · exact List.getD_eq_default _ _ hk

theorem sortObs_getD_lt {l : List F} {k : ℕ} (hk : k < vldCount l) :
    (sortObs l).getD k F.nan = F.fin ((sortValids l).getD k 0) := by
  rw [sortObs_eq]
  have hk2 : k < (sortValids l).length := by rw [sortValids_length]; exact hk
  have hk3 : k < ((sortValids l).map F.fin).length := by
    rw [List.length_map]; exact hk2
  rw [List.getD_append _ _ _ _ hk3, List.getD_eq_getElem _ _ hk3,
    List.getElem_map, List.getD_eq_getElem _ _ hk2]

theorem sortObs_all_nan {l : List F} (h : ∀ x ∈ l, x = F.nan) (k : ℕ) :
    (sortObs l).getD k F.nan = F.nan := by
  apply getD_all_nan
  intro x hx
  exact h x ((List.perm_insertionSort F.le l).mem_iff.mp hx)

theorem argsortIdx_all_nan {l : List F} (h : ∀ x ∈ l, x = F.nan) :
    argsortIdx l = List.range l.length := by
  apply List.Sorted.insertionSort_eq
  have hv : ∀ k, l.getD k F.nan = F.nan := getD_all_nan h
  refine (List.pairwise_lt_range l.length).imp ?_
  intro i j hij
  right
  unfold argLe at *
  rw [hv i, hv j]
  exact ⟨F.le_any_nan _, F.le_any_nan _, Nat.le_of_lt hij⟩

theorem pixelObs_length (bands P : ℕ) (d : List F) (a : ℕ) :
    (pixelObs bands P d a).length = bands := by
  rw [pixelObs, List.length_map, List.length_range]

/-- `getD` through a `map` over `range`. -/
theorem getD_map_range {α : Type} {N : ℕ} {f : ℕ → α} {i : ℕ} (h : i < N)
    (dflt : α) : ((List.range N).map f).getD i dflt = f i := by
  have h2 : i < ((List.range N).map f).length := by
    rw [List.length_map, List.length_range]; exact h
  rw [List.getD_eq_getElem _ _ h2, List.getElem_map, List.getElem_range]

theorem npGet_ok {l : List F} {i : ℤ} (h0 : 0 ≤ i) (h : i < (l.length : ℤ)) :
    npGet l i = .ok (l.getD i.toNat F.nan) := by
  unfold npGet
  rw [if_pos ⟨h0, h⟩]

theorem npGet_wrap {l : List F} {i : ℤ} (h0 : -(l.length : ℤ) ≤ i) (h : i < 0) :
    npGet l i = .ok (l.getD (i + l.length).toNat F.nan) := by
  unfold npGet
  rw [if_neg (by omega), if_pos ⟨h0, h⟩]

theorem ravelBsq_length (bands P : ℕ) (g : ℕ → ℕ → F) :
    (ravelBsq bands P g).length = bands * P := by
  rw [ravelBsq, List.length_map, List.length_range]

theorem ravelBip_length (bands P : ℕ) (g : ℕ → ℕ → F) :
    (ravelBip bands P g).length = bands * P := by
  rw [ravelBip, List.length_map, List.length_range]

theorem bsq_decode {P bands a k : ℕ} (ha : a < P) (hk : k < bands) :
    (k * P + a) % P = a ∧ (k * P + a) / P = k ∧ k * P + a < bands * P := by
  have hP : 0 < P := by omega
  refine ⟨?_, ?_, ?_⟩
  · rw [mul_comm, Nat.mul_add_mod, Nat.mod_eq_of_lt ha]
  · rw [mul_comm, Nat.mul_add_div hP, Nat.div_eq_of_lt ha, Nat.add_zero]
  · calc k * P + a < k * P + P := by omega
    _ = (k + 1) * P := by ring
    _ ≤ bands * P := Nat.mul_le_mul_right _ hk

theorem bip_decode {P bands a k : ℕ} (ha : a < P) (hk : k < bands) :
    (a * bands + k) / bands = a ∧ (a * bands + k) % bands = k ∧
      a * bands + k < bands * P := by
  have hb : 0 < bands := by omega
  refine ⟨?_, ?_, ?_⟩
  · rw [mul_comm, Nat.mul_add_div hb, Nat.div_eq_of_lt hk, Nat.add_zero]
  · rw [mul_comm, Nat.mul_add_mod, Nat.mod_eq_of_lt hk]
  · calc a * bands + k < a * bands + bands := by omega
    _ = (a + 1) * bands := by ring
    _ ≤ P * bands := Nat.mul_le_mul_right _ ha
    _ = bands * P := Nat.mul_comm _ _

/-- Fancy-indexing the `[z,y,x]` ravel at `k*P + a` selects pixel `a`,
z-rank `k`. -/
theorem npGet_ravelBsq {bands P : ℕ} {g : ℕ → ℕ → F} {a k : ℕ}
    (ha : a < P) (hk : k < bands) :
    npGet (ravelBsq bands P g) ((k : ℤ) * P + a) = .ok (g a k) := by
  obtain ⟨e1, e2, e3⟩ := bsq_decode ha hk
  have h0 : (0 : ℤ) ≤ (k : ℤ) * P + a := by positivity
  have hcast : (k : ℤ) * P + a = ((k * P + a : ℕ) : ℤ) := by push_cast; ring
  have hN : (k : ℤ) * P + a < ((ravelBsq bands P g).length : ℤ) := by
    rw [ravelBsq_length, hcast]
    exact_mod_cast e3
  rw [npGet_ok h0 hN, hcast, Int.toNat_natCast, ravelBsq,
    getD_map_range e3, e1, e2]

/-- Fancy-indexing the transposed ravel at `k + a*bands` selects pixel `a`,
z-rank `k`. -/
theorem npGet_ravelBip {bands P : ℕ} {g : ℕ → ℕ → F} {a k : ℕ}
    (ha : a < P) (hk : k < bands) :
    npGet (ravelBip bands P g) ((k : ℤ) + (a : ℤ) * bands) = .ok (g a k) := by
  obtain ⟨e1, e2, e3⟩ := bip_decode ha hk
  have h0 : (0 : ℤ) ≤ (k : ℤ) + (a : ℤ) * bands := by positivity
  have hcast : (k : ℤ) + (a : ℤ) * bands = ((a * bands + k : ℕ) : ℤ) := by
    push_cast; ring
  have hN : (k : ℤ) + (a : ℤ) * bands < ((ravelBip bands P g).length : ℤ) := by
    rw [ravelBip_length, hcast]
    exact_mod_cast e3
  rw [npGet_ok h0 hN, hcast, Int.toNat_natCast, ravelBip,
    getD_map_range e3, e1, e2]

/-- Fancy-indexing the `[z,y,x]` ravel at the negative index `-j*P + a`
wraps to pixel `a`, z-rank `bands - j` (same pixel, counted from the top
sorted plane). -/
theorem npGet_ravelBsq_neg (bands : ℕ) {P : ℕ} {g : ℕ → ℕ → F} {a j : ℕ}
    (ha : a < P) (hj1 : 1 ≤ j) (hj2 : j ≤ bands) :
    npGet (ravelBsq bands P g) (-(j : ℤ) * P + a) = .ok (g a (bands - j)) := by
  obtain ⟨e1, e2, e3⟩ := bsq_decode ha (show bands - j < bands by omega)
  have hP : 0 < P := by omega
  have hneg : -(j : ℤ) * P + a < 0 := by
    have h1 : (P : ℤ) ≤ (j : ℤ) * P := by
      nlinarith [show (1:ℤ) ≤ (j:ℤ) from by exact_mod_cast hj1,
        show (0:ℤ) ≤ (P:ℤ) from by positivity]
    have h2 : -(j : ℤ) * P = -((j : ℤ) * P) := by ring
    have h3 : (a : ℤ) < (P : ℤ) := by exact_mod_cast ha
    rw [h2]
    linarith
  have hlow : -(((ravelBsq bands P g).length : ℕ) : ℤ) ≤ -(j : ℤ) * P + a := by
    rw [ravelBsq_length]
    have h1 : (j : ℤ) ≤ (bands : ℤ) := by exact_mod_cast hj2
    have h2 : (j : ℤ) * P ≤ (bands : ℤ) * P :=
      mul_le_mul_of_nonneg_right h1 (by positivity)
    have h3 : -(j : ℤ) * P = -((j : ℤ) * P) := by ring
    rw [h3]
    push_cast
    linarith [show (0:ℤ) ≤ (a:ℤ) from by positivity]
  rw [npGet_wrap hlow hneg]
  have hcast : -(j : ℤ) * P + a + ((ravelBsq bands P g).length : ℕ) =
      (((bands - j) * P + a : ℕ) : ℤ) := by
    rw [ravelBsq_length]
    have h1 : ((bands - j : ℕ) : ℤ) = (bands : ℤ) - j := by omega
    push_cast [h1]
    ring
  rw [hcast, Int.toNat_natCast, ravelBsq, getD_map_range e3, e1, e2]

/-! ### Per-pixel evaluation of the kernel -/

theorem q2Rank_bounds {n : ℕ} (h : 1 ≤ n) : 0 ≤ q2Rank n ∧ q2Rank n < n := by
  unfold q2Rank
  omega

theorem q1Rank_bounds {n : ℕ} (h : 1 ≤ n) :
    0 ≤ q1Rank n ∧ q2Rank n + q1Rank n < n := by
  unfold q1Rank q2Rank
  omega

/-- The per-pixel output record when the order-statistic lookups land
inside the pixel (which holds whenever the pixel has a valid observation:
the z-ranks `q2Rank n`, `q1Rank n` and their sum then lie in `[0, n) ⊆
[0, bands)`). -/
def pixelStatsValid (bands P : ℕ) (d : List F) (a : ℕ) : Stats :=
  let obs := pixelObs bands P d a
  let n := vldCount obs
  let sumv := nansum obs
  let meanv := sumv.div (F.fin (n : ℚ))
  let residuals := obs.map (fun x => x.sub meanv)
  let variance := (nansum (residuals.map (fun r => r.mul r))).div
    ((F.fin (n : ℚ)).sub (F.fin 1))
  { sum := sumv
    mean := meanv
    valid_count := F.fin (n : ℚ)
    variance := variance
    stddev := stddevOf variance
    skewness := skewOf residuals variance n
    kurtosis := kurtOf residuals variance n
    max := nanmax obs
    min := nanmin obs
    median := (sortObs obs).getD (q2Rank n).toNat F.nan
    median_index := F.fin (((argsortIdx obs).getD (q2Rank n).toNat 0 : ℕ) : ℚ)
    q1 := (sortObs obs).getD (q1Rank n).toNat F.nan
    q3 := (sortObs obs).getD (q2Rank n + q1Rank n).toNat F.nan
    geometric_mean := geoOf obs n }

theorem pixelStatsCore_ok_of_valid {bands P : ℕ} {d : List F} (asBip : Bool)
    {a : ℕ} (ha : a < P) (hn : 1 ≤ vldCount (pixelObs bands P d a)) :
    pixelStatsCore bands P d asBip a = .ok (pixelStatsValid bands P d a) := by
  set obs := pixelObs bands P d a with hobs
  set n := vldCount obs with hnn
  have hnb : n ≤ bands := by
    have h1 := vldCount_le_length obs
    rwa [hobs, pixelObs_length] at h1
  obtain ⟨hq20, hq2n⟩ := q2Rank_bounds hn
  obtain ⟨hq10, hq3n⟩ := q1Rank_bounds hn
  have hq30 : 0 ≤ q2Rank n + q1Rank n := by omega
  have hk2 : (q2Rank n).toNat < bands := by omega
  have hk1 : (q1Rank n).toNat < bands := by omega
  have hk3 : (q2Rank n + q1Rank n).toNat < bands := by omega
  cases asBip with
  | false =>
      have hmed : npGet (flatSortBsq bands P d) (q2Rank n * P + a) =
          .ok ((sortObs obs).getD (q2Rank n).toNat F.nan) := by
        have h := npGet_ravelBsq
          (g := fun b k => (sortObs (pixelObs bands P d b)).getD k F.nan) ha hk2
        rw [show (((q2Rank n).toNat : ℤ)) * P + a = q2Rank n * P + a by
          rw [Int.toNat_of_nonneg hq20]] at h
        rw [flatSortBsq]
        exact h
      have hmi : npGet (flatArgBsq bands P d) (q2Rank n * P + a) =
          .ok (F.fin (((argsortIdx obs).getD (q2Rank n).toNat 0 : ℕ) : ℚ)) := by
        have h := npGet_ravelBsq
          (g := fun b k => F.fin (((argsortIdx (pixelObs bands P d b)).getD k 0 : ℕ) : ℚ))
          ha hk2
        rw [show (((q2Rank n).toNat : ℤ)) * P + a = q2Rank n * P + a by
          rw [Int.toNat_of_nonneg hq20]] at h
        rw [flatArgBsq]
        exact h
      have hq1 : npGet (flatSortBsq bands P d) (q1Rank n * P + a) =
          .ok ((sortObs obs).getD (q1Rank n).toNat F.nan) := by
        have h := npGet_ravelBsq
          (g := fun b k => (sortObs (pixelObs bands P d b)).getD k F.nan) ha hk1
        rw [show (((q1Rank n).toNat : ℤ)) * P + a = q1Rank n * P + a by
          rw [Int.toNat_of_nonneg hq10]] at h
        rw [flatSortBsq]
        exact h
      have hq3 : npGet (flatSortBsq bands P d) ((q2Rank n + q1Rank n) * P + a) =
          .ok ((sortObs obs).getD (q2Rank n + q1Rank n).toNat F.nan) := by
        have h := npGet_ravelBsq
          (g := fun b k => (sortObs (pixelObs bands P d b)).getD k F.nan) ha hk3
        rw [show (((q2Rank n + q1Rank n).toNat : ℤ)) * P + a =
            (q2Rank n + q1Rank n) * P + a by
          rw [Int.toNat_of_nonneg hq30]] at h
        rw [flatSortBsq]
        exact h
      simp only [pixelStatsCore, pixelStatsValid, Bool.false_eq_true, if_false,
        ← hobs, ← hnn]
      rw [hmed, hmi, hq1, hq3]
      rfl
  | true =>
      have hmed : npGet (flatSortBip bands P d) (q2Rank n + a * bands) =
          .ok ((sortObs obs).getD (q2Rank n).toNat F.nan) := by
        have h := npGet_ravelBip
          (g := fun b k => (sortObs (pixelObs bands P d b)).getD k F.nan) ha hk2
        rw [show (((q2Rank n).toNat : ℤ)) + (a : ℤ) * bands = q2Rank n + a * bands by
          rw [Int.toNat_of_nonneg hq20]] at h
        rw [flatSortBip]
        exact h
      have hmi : npGet (flatArgBip bands P d) (q2Rank n + a * bands) =
          .ok (F.fin (((argsortIdx obs).getD (q2Rank n).toNat 0 : ℕ) : ℚ)) := by
        have h := npGet_ravelBip
          (g := fun b k => F.fin (((argsortIdx (pixelObs bands P d b)).getD k 0 : ℕ) : ℚ))
          ha hk2
        rw [show (((q2Rank n).toNat : ℤ)) + (a : ℤ) * bands = q2Rank n + a * bands by
          rw [Int.toNat_of_nonneg hq20]] at h
        rw [flatArgBip]
        exact h
      have hq1 : npGet (flatSortBip bands P d) (q1Rank n + a * bands) =
          .ok ((sortObs obs).getD (q1Rank n).toNat F.nan) := by
        have h := npGet_ravelBip
          (g := fun b k => (sortObs (pixelObs bands P d b)).getD k F.nan) ha hk1
        rw [show (((q1Rank n).toNat : ℤ)) + (a : ℤ) * bands = q1Rank n + a * bands by
          rw [Int.toNat_of_nonneg hq10]] at h
        rw [flatSortBip]
        exact h
      have hq3 : npGet (flatSortBip bands P d) ((q2Rank n + q1Rank n) + a * bands) =
          .ok ((sortObs obs).getD (q2Rank n + q1Rank n).toNat F.nan) := by
        have h := npGet_ravelBip
          (g := fun b k => (sortObs (pixelObs bands P d b)).getD k F.nan) ha hk3
        rw [show (((q2Rank n + q1Rank n).toNat : ℤ)) + (a : ℤ) * bands =
            (q2Rank n + q1Rank n) + a * bands by
          rw [Int.toNat_of_nonneg hq30]] at h
        rw [flatSortBip]
        exact h
      simp only [pixelStatsCore, pixelStatsValid, if_true, ← hobs, ← hnn]
      rw [hmed, hmi, hq1, hq3]
      rfl

/-- All-missing pixel, default `[z,y,x]` layout, at least two z-planes:
the rank arithmetic degenerates to the negative indices -1 (median, q1)
and -2 (q3), whose wrap-around stays inside the pixel (top sorted planes,
all NaN), while the median-index plane receives the last argsort position
`bands - 1` — a finite value. -/
theorem pixelStatsCore_all_nan {bands P : ℕ} {d : List F} {a : ℕ}
    (ha : a < P) (hb : 2 ≤ bands)
    (h : ∀ x ∈ pixelObs bands P d a, x = F.nan) :
    pixelStatsCore bands P d false a = .ok
      { sum := F.nan, mean := F.nan, valid_count := F.fin 0, variance := F.nan,
        stddev := SF.nan, skewness := KF.nan, kurtosis := F.nan, max := F.nan,
        min := F.nan, median := F.nan,
        median_index := F.fin ((bands - 1 : ℕ) : ℚ), q1 := F.nan, q3 := F.nan,
        geometric_mean := GF.nan } := by
  set obs := pixelObs bands P d a with hobs
  have hfv : finVals obs = [] := finVals_eq_nil_iff.mpr h
  have hn0 : vldCount obs = 0 := by
    rw [← finVals_length, hfv]
    rfl
  have hsum : nansum obs = F.nan := by unfold nansum; rw [hfv]
  have hA : npGet (flatSortBsq bands P d) ((-1) * P + a) =
      .ok ((sortObs obs).getD (bands - 1) F.nan) := by
    have h1 := npGet_ravelBsq_neg bands (P := P)
      (g := fun b k => (sortObs (pixelObs bands P d b)).getD k F.nan) (j := 1)
      ha (le_refl 1) (by omega)
    rw [show -((1:ℕ):ℤ) = (-1 : ℤ) by norm_num] at h1
    rw [flatSortBsq]
    exact h1
  have hB : npGet (flatArgBsq bands P d) ((-1) * P + a) =
      .ok (F.fin (((argsortIdx obs).getD (bands - 1) 0 : ℕ) : ℚ)) := by
    have h1 := npGet_ravelBsq_neg bands (P := P)
      (g := fun b k => F.fin (((argsortIdx (pixelObs bands P d b)).getD k 0 : ℕ) : ℚ))
      (j := 1) ha (le_refl 1) (by omega)
    rw [show -((1:ℕ):ℤ) = (-1 : ℤ) by norm_num] at h1
    rw [flatArgBsq]
    exact h1
  have hC : npGet (flatSortBsq bands P d) ((-2) * P + a) =
      .ok ((sortObs obs).getD (bands - 2) F.nan) := by
    have h1 := npGet_ravelBsq_neg bands (P := P)
      (g := fun b k => (sortObs (pixelObs bands P d b)).getD k F.nan) (j := 2)
      ha (show 1 ≤ 2 by norm_num) hb
    rw [show -((2:ℕ):ℤ) = (-2 : ℤ) by norm_num] at h1
    rw [flatSortBsq]
    exact h1
  have hcomp : pixelStatsCore bands P d false a = .ok
      { sum := nansum obs
        mean := (nansum obs).div (F.fin ((0 : ℕ) : ℚ))
        valid_count := F.fin ((0 : ℕ) : ℚ)
        variance := (nansum ((obs.map (fun x =>
            x.sub ((nansum obs).div (F.fin ((0 : ℕ) : ℚ))))).map
            (fun r => r.mul r))).div ((F.fin ((0 : ℕ) : ℚ)).sub (F.fin 1))
        stddev := stddevOf ((nansum ((obs.map (fun x =>
            x.sub ((nansum obs).div (F.fin ((0 : ℕ) : ℚ))))).map
            (fun r => r.mul r))).div ((F.fin ((0 : ℕ) : ℚ)).sub (F.fin 1)))
        skewness := skewOf (obs.map (fun x =>
            x.sub ((nansum obs).div (F.fin ((0 : ℕ) : ℚ)))))
          ((nansum ((obs.map (fun x =>
            x.sub ((nansum obs).div (F.fin ((0 : ℕ) : ℚ))))).map
            (fun r => r.mul r))).div ((F.fin ((0 : ℕ) : ℚ)).sub (F.fin 1))) 0
        kurtosis := kurtOf (obs.map (fun x =>
            x.sub ((nansum obs).div (F.fin ((0 : ℕ) : ℚ)))))
          ((nansum ((obs.map (fun x =>
            x.sub ((nansum obs).div (F.fin ((0 : ℕ) : ℚ))))).map
            (fun r => r.mul r))).div ((F.fin ((0 : ℕ) : ℚ)).sub (F.fin 1))) 0
        max := nanmax obs
        min := nanmin obs
        median := (sortObs obs).getD (bands - 1) F.nan
        median_index := F.fin (((argsortIdx obs).getD (bands - 1) 0 : ℕ) : ℚ)
        q1 := (sortObs obs).getD (bands - 1) F.nan
        q3 := (sortObs obs).getD (bands - 2) F.nan
        geometric_mean := geoOf obs 0 } := by
    simp only [pixelStatsCore, Bool.false_eq_true, if_false, ← hobs, hn0]
    rw [show q2Rank 0 = (-1 : ℤ) from by decide,
      show q1Rank 0 = (-1 : ℤ) from by decide]
    rw [show ((-1 : ℤ) + (-1 : ℤ)) = (-2 : ℤ) from by norm_num]
    rw [hA, hB, hC]
    rfl
  rw [hcomp]
  have hM : (nansum obs).div (F.fin ((0 : ℕ) : ℚ)) = F.nan := by
    rw [hsum]
    rfl
  have hres : ∀ x ∈ obs.map (fun x =>
      x.sub ((nansum obs).div (F.fin ((0 : ℕ) : ℚ)))), x = F.nan := by
    intro x hx
    rw [List.mem_map] at hx
    obtain ⟨y, _, rfl⟩ := hx
    rw [hM]
    cases y <;> rfl
  have hsq : ∀ x ∈ (obs.map (fun x =>
      x.sub ((nansum obs).div (F.fin ((0 : ℕ) : ℚ))))).map (fun r => r.mul r),
      x = F.nan := by
    intro x hx
    rw [List.mem_map] at hx
    obtain ⟨y, hy, rfl⟩ := hx
    rw [hres y hy]
    rfl
  have hvar : (nansum ((obs.map (fun x =>
      x.sub ((nansum obs).div (F.fin ((0 : ℕ) : ℚ))))).map
      (fun r => r.mul r))).div ((F.fin ((0 : ℕ) : ℚ)).sub (F.fin 1)) = F.nan := by
    rw [nansum_of_nil (finVals_eq_nil_iff.mpr hsq)]
    rfl
  have hargs : argsortIdx obs = List.range bands := by
    have h1 := argsortIdx_all_nan h
    rwa [hobs, pixelObs_length] at h1
  simp only [Except.ok.injEq, Stats.mk.injEq]
  refine ⟨?_, ?_, ?_, ?_, ?_, ?_, ?_, ?_, ?_, ?_, ?_, ?_, ?_, ?_⟩
  · exact hsum
  · exact hM
  · norm_num
  · exact hvar
  · rw [hvar]; rfl
  · rw [hvar]; rfl
  · rw [hvar]; rfl
  · unfold nanmax; rw [hfv]
  · unfold nanmin; rw [hfv]
  · exact sortObs_all_nan h _
  · rw [hargs, List.getD_eq_getElem _ _ (by
      rw [List.length_range]; omega), List.getElem_range]
  · exact sortObs_all_nan h _
  · exact sortObs_all_nan h _
  · rfl

/-! ### From the whole-block kernel to single pixels -/

theorem maskData_none (data : List F) : maskData none data = data := rfl

theorem nansum_of_single {l : List F} {v : ℚ} (h : finVals l = [v]) :
    nansum l = F.fin v := by
  unfold nansum
  rw [h]
  norm_num

theorem finVals_map {l : List F} {f : F → F} {g : ℚ → ℚ}
    (hnan : f F.nan = F.nan) (hfin : ∀ q, f (F.fin q) = F.fin (g q)) :
    finVals (l.map f) = (finVals l).map g := by
  induction l with
  | nil => rfl
  | cons x xs ih =>
      cases x with
      | nan =>
          have e1 : finVals ((F.nan :: xs).map f) = finVals (xs.map f) := by
            rw [List.map_cons, hnan]
            rfl
          rw [e1, ih]
          rfl
      | fin q =>
          have e1 : finVals ((F.fin q :: xs).map f) = g q :: finVals (xs.map f) := by
            rw [List.map_cons, hfin]
            rfl
          rw [e1, ih]
          rfl

theorem collect_getD {α : Type} :
    ∀ {l : List (Except String α)} {res : List α}, collect l = .ok res →
      ∀ (i : ℕ) (d : α), i < l.length → l.getD i (.ok d) = .ok (res.getD i d)
  | [], res, h, i, d, hi => absurd hi (by simp)
  | x :: xs, res, h, i, d, hi => by
      cases hx : x with
      | error e =>
          rw [hx] at h
          simp [collect] at h
      | ok v =>
          rw [hx] at h
          simp only [collect] at h
          cases hxs : collect xs with
          | error e =>
              rw [hxs] at h
              simp at h
          | ok vs =>
              rw [hxs] at h
              simp only [Except.ok.injEq] at h
              subst h
              cases i with
              | zero => simp [hx]
              | succ i =>
                  simp only [List.getD_cons_succ]
                  exact collect_getD hxs i d (by simpa using hi)

theorem bulk_stats_ok_parts {bands rows cols : ℕ} {data : List F}
    {nd : Option ℚ} {dbl bip : Bool} {post : List F} {outs : List Stats}
    (h : bulk_stats bands rows cols data nd dbl bip = .ok (post, outs)) :
    collect ((List.range (rows * cols)).map
      (fun a => pixelStatsCore bands (rows * cols) (maskData nd data) bip a)) =
        .ok outs ∧
    post = postData nd dbl data := by
  simp only [bulk_stats] at h
  cases hc : collect ((List.range (rows * cols)).map
      (fun a => pixelStatsCore bands (rows * cols) (maskData nd data) bip a)) with
  | error e =>
      rw [hc] at h
      simp at h
  | ok vs =>
      rw [hc] at h
      simp only [Except.ok.injEq, Prod.mk.injEq] at h
      obtain ⟨h1, h2⟩ := h
      exact ⟨by rw [h2], h1.symm⟩

theorem bulk_stats_pixel {bands rows cols : ℕ} {data : List F} {nd : Option ℚ}
    {dbl bip : Bool} {post : List F} {outs : List Stats} {a : ℕ}
    (h : bulk_stats bands rows cols data nd dbl bip = .ok (post, outs))
    (ha : a < rows * cols) :
    pixelStatsCore bands (rows * cols) (maskData nd data) bip a =
      .ok (outs.getD a default) := by
  obtain ⟨hc, -⟩ := bulk_stats_ok_parts h
  have h1 := collect_getD hc a default
    (by rw [List.length_map, List.length_range]; exact ha)
  rwa [getD_map_range ha (Except.ok default)] at h1

/-- All plane values of a single-valid-observation pixel of
`pixelStatsValid`. -/
theorem pixelStatsValid_single {bands P : ℕ} {d : List F} {a : ℕ} {v : ℚ}
    (hfin : finVals (pixelObs bands P d a) = [v]) :
    (pixelStatsValid bands P d a).variance = F.nan ∧
    (pixelStatsValid bands P d a).stddev = SF.nan ∧
    (pixelStatsValid bands P d a).skewness = KF.nan ∧
    (pixelStatsValid bands P d a).kurtosis = F.nan ∧
    (pixelStatsValid bands P d a).sum = F.fin v ∧
    (pixelStatsValid bands P d a).mean = F.fin v ∧
    (pixelStatsValid bands P d a).max = F.fin v ∧
    (pixelStatsValid bands P d a).min = F.fin v ∧
    (pixelStatsValid bands P d a).median = F.fin v ∧
    (pixelStatsValid bands P d a).geometric_mean = GF.val v 1 := by
  set obs := pixelObs bands P d a with hobs
  have hn : vldCount obs = 1 := by
    rw [← finVals_length, hfin]
    rfl
  have hs : nansum obs = F.fin v := nansum_of_single hfin
  have hm : (nansum obs).div (F.fin ((vldCount obs : ℕ) : ℚ)) = F.fin v := by
    rw [hs, hn]
    show F.fin _ = _
    norm_num [F.div]
  have hresv : finVals (obs.map (fun x =>
      x.sub ((nansum obs).div (F.fin ((vldCount obs : ℕ) : ℚ))))) = [0] := by
    rw [hm]
    rw [finVals_map (g := fun q => q - v) rfl (fun q => rfl), hfin]
    norm_num
  have hsqv : finVals ((obs.map (fun x =>
      x.sub ((nansum obs).div (F.fin ((vldCount obs : ℕ) : ℚ))))).map
      (fun r => r.mul r)) = [0] := by
    rw [finVals_map (g := fun q => q * q) rfl (fun q => rfl), hresv]
    norm_num
  have hvar : (nansum ((obs.map (fun x =>
      x.sub ((nansum obs).div (F.fin ((vldCount obs : ℕ) : ℚ))))).map
      (fun r => r.mul r))).div
      ((F.fin ((vldCount obs : ℕ) : ℚ)).sub (F.fin 1)) = F.nan := by
    rw [nansum_of_single hsqv, hn]
    show F.div _ _ = _
    norm_num [F.div, F.sub]
  simp only [pixelStatsValid, ← hobs]
  refine ⟨hvar, by rw [hvar]; rfl, by rw [hvar]; rfl, by rw [hvar]; rfl,
    hs, hm, ?_, ?_, ?_, ?_⟩
  · unfold nanmax
    rw [hfin]
    rfl
  · unfold nanmin
    rw [hfin]
    rfl
  · rw [hn]
    have h2 : (q2Rank 1).toNat = 0 := by decide
    rw [h2, sortObs_getD_lt (by omega)]
    unfold sortValids
    rw [hfin]
    rfl
  · rw [hn]
    unfold geoOf
    rw [hfin]
    norm_num

/-- C2 counterexample: for the all-missing (2,1,1) block `[NaN, NaN]` the
median-index plane is 1.0 (the last argsort position), not NaN, so not
every non-count plane is NaN. -/
theorem C2_counterexample :
    ∃ post outs,
      bulk_stats 2 1 1 [F.nan, F.nan] none false false = .ok (post, outs) ∧
      (outs.getD 0 default).valid_count = F.fin 0 ∧
      (outs.getD 0 default).median_index = F.fin 1 ∧
      (outs.getD 0 default).median_index ≠ F.nan := by
  refine ⟨[F.fin 1, F.fin 1],
    [⟨F.nan, F.nan, F.fin 0, F.nan, SF.nan, KF.nan, F.nan, F.nan, F.nan,
      F.nan, F.fin 1, F.nan, F.nan, GF.nan⟩], ?_, ?_, ?_, ?_⟩ <;> decide

/-- C2 (amended): on the default `[z,y,x]` path with at least two z-planes,
an all-missing pixel yields NaN in every output plane except `valid_count`
(0) and `median_index` (which holds the finite argsort position
`bands - 1`; with a single z-plane the q3 lookup instead raises
IndexError); a pixel with exactly one valid observation `v` yields NaN for
variance, stddev, skewness and kurtosis, while sum, mean, max, min, median
and geometric mean are defined values derived from `v`. -/
theorem C2_degenerate_pixels_amended (bands rows cols : ℕ) (data : List F)
    (dbl : Bool) (post : List F) (outs : List Stats) (a : ℕ)
    (hok : bulk_stats bands rows cols data none dbl false = .ok (post, outs))
    (hb : 2 ≤ bands) (ha : a < rows * cols) :
    ((∀ x ∈ pixelObs bands (rows * cols) data a, x = F.nan) →
      outs.getD a default =
        { sum := F.nan, mean := F.nan, valid_count := F.fin 0, variance := F.nan,
          stddev := SF.nan, skewness := KF.nan, kurtosis := F.nan, max := F.nan,
          min := F.nan, median := F.nan,
          median_index := F.fin ((bands - 1 : ℕ) : ℚ), q1 := F.nan, q3 := F.nan,
          geometric_mean := GF.nan }) ∧
    (∀ v : ℚ, finVals (pixelObs bands (rows * cols) data a) = [v] →
      (outs.getD a default).variance = F.nan ∧
      (outs.getD a default).stddev = SF.nan ∧
      (outs.getD a default).skewness = KF.nan ∧
      (outs.getD a default).kurtosis = F.nan ∧
      (outs.getD a default).sum = F.fin v ∧
      (outs.getD a default).mean = F.fin v ∧
      (outs.getD a default).max = F.fin v ∧
      (outs.getD a default).min = F.fin v ∧
      (outs.getD a default).median = F.fin v ∧
      (outs.getD a default).geometric_mean = GF.val v 1) := by
  have hpix := bulk_stats_pixel hok ha
  rw [maskData_none] at hpix
  constructor
  · intro hmiss
    have h2 := pixelStatsCore_all_nan ha hb hmiss
    rw [hpix] at h2
    exact Except.ok.inj h2
  · intro v hfin
    have hn : 1 ≤ vldCount (pixelObs bands (rows * cols) data a) := by
      rw [← finVals_length, hfin]
      norm_num
    have h2 := pixelStatsCore_ok_of_valid false ha hn
    rw [hpix] at h2
    have h3 := Except.ok.inj h2
    rw [h3]
    exact pixelStatsValid_single hfin

/-- C2 witness: the amended statement instantiated on the all-missing
(2,1,1) block `[NaN, NaN]` at pixel 0. -/
theorem C2_degenerate_pixels_amended_witness :
    bulk_stats 2 1 1 [F.nan, F.nan] none false false = .ok
      ([F.fin 1, F.fin 1],
        [⟨F.nan, F.nan, F.fin 0, F.nan, SF.nan, KF.nan, F.nan, F.nan, F.nan,
          F.nan, F.fin 1, F.nan, F.nan, GF.nan⟩]) ∧
    2 ≤ 2 ∧ 0 < 1 * 1 ∧
    (((∀ x ∈ pixelObs 2 (1 * 1) [F.nan, F.nan] 0, x = F.nan) →
      [(⟨F.nan, F.nan, F.fin 0, F.nan, SF.nan, KF.nan, F.nan, F.nan, F.nan,
          F.nan, F.fin 1, F.nan, F.nan, GF.nan⟩ : Stats)].getD 0 default =
        { sum := F.nan, mean := F.nan, valid_count := F.fin 0, variance := F.nan,
          stddev := SF.nan, skewness := KF.nan, kurtosis := F.nan, max := F.nan,
          min := F.nan, median := F.nan,
          median_index := F.fin ((2 - 1 : ℕ) : ℚ), q1 := F.nan, q3 := F.nan,
          geometric_mean := GF.nan }) ∧
    (∀ v : ℚ, finVals (pixelObs 2 (1 * 1) [F.nan, F.nan] 0) = [v] →
      ([(⟨F.nan, F.nan, F.fin 0, F.nan, SF.nan, KF.nan, F.nan, F.nan, F.nan,
          F.nan, F.fin 1, F.nan, F.nan, GF.nan⟩ : Stats)].getD 0 default).variance = F.nan ∧
      ([(⟨F.nan, F.nan, F.fin 0, F.nan, SF.nan, KF.nan, F.nan, F.nan, F.nan,
          F.nan, F.fin 1, F.nan, F.nan, GF.nan⟩ : Stats)].getD 0 default).stddev = SF.nan ∧
      ([(⟨F.nan, F.nan, F.fin 0, F.nan, SF.nan, KF.nan, F.nan, F.nan, F.nan,
          F.nan, F.fin 1, F.nan, F.nan, GF.nan⟩ : Stats)].getD 0 default).skewness = KF.nan ∧
      ([(⟨F.nan, F.nan, F.fin 0, F.nan, SF.nan, KF.nan, F.nan, F.nan, F.nan,
          F.nan, F.fin 1, F.nan, F.nan, GF.nan⟩ : Stats)].getD 0 default).kurtosis = F.nan ∧
      ([(⟨F.nan, F.nan, F.fin 0, F.nan, SF.nan, KF.nan, F.nan, F.nan, F.nan,
          F.nan, F.fin 1, F.nan, F.nan, GF.nan⟩ : Stats)].getD 0 default).sum = F.fin v ∧
      ([(⟨F.nan, F.nan, F.fin 0, F.nan, SF.nan, KF.nan, F.nan, F.nan, F.nan,
          F.nan, F.fin 1, F.nan, F.nan, GF.nan⟩ : Stats)].getD 0 default).mean = F.fin v ∧
      ([(⟨F.nan, F.nan, F.fin 0, F.nan, SF.nan, KF.nan, F.nan, F.nan, F.nan,
          F.nan, F.fin 1, F.nan, F.nan, GF.nan⟩ : Stats)].getD 0 default).max = F.fin v ∧
      ([(⟨F.nan, F.nan, F.fin 0, F.nan, SF.nan, KF.nan, F.nan, F.nan, F.nan,
          F.nan, F.fin 1, F.nan, F.nan, GF.nan⟩ : Stats)].getD 0 default).min = F.fin v ∧
      ([(⟨F.nan, F.nan, F.fin 0, F.nan, SF.nan, KF.nan, F.nan, F.nan, F.nan,
          F.nan, F.fin 1, F.nan, F.nan, GF.nan⟩ : Stats)].getD 0 default).median = F.fin v ∧
      ([(⟨F.nan, F.nan, F.fin 0, F.nan, SF.nan, KF.nan, F.nan, F.nan, F.nan,
          F.nan, F.fin 1, F.nan, F.nan, GF.nan⟩ : Stats)].getD 0 default).geometric_mean = GF.val v 1)) :=
  ⟨by decide, by norm_num, by norm_num,
    C2_degenerate_pixels_amended 2 1 1 [F.nan, F.nan] false [F.fin 1, F.fin 1]
      [⟨F.nan, F.nan, F.fin 0, F.nan, SF.nan, KF.nan, F.nan, F.nan, F.nan,
        F.nan, F.fin 1, F.nan, F.nan, GF.nan⟩] 0 (by decide) (by norm_num)
      (by norm_num)⟩

theorem pixelStatsValid_median {bands P : ℕ} {d : List F} {a : ℕ}
    (hn : 1 ≤ vldCount (pixelObs bands P d a)) :
    (pixelStatsValid bands P d a).median =
      F.fin ((sortValids (pixelObs bands P d a)).getD
        (q2Rank (vldCount (pixelObs bands P d a))).toNat 0) := by
  simp only [pixelStatsValid]
  refine sortObs_getD_lt ?_
  have h := q2Rank_bounds hn
  omega

theorem pixelStatsValid_q1 {bands P : ℕ} {d : List F} {a : ℕ}
    (hn : 1 ≤ vldCount (pixelObs bands P d a)) :
    (pixelStatsValid bands P d a).q1 =
      F.fin ((sortValids (pixelObs bands P d a)).getD
        (q1Rank (vldCount (pixelObs bands P d a))).toNat 0) := by
  simp only [pixelStatsValid]
  refine sortObs_getD_lt ?_
  have h1 := q1Rank_bounds hn
  have h2 := q2Rank_bounds hn
  omega

theorem pixelStatsValid_q3 {bands P : ℕ} {d : List F} {a : ℕ}
    (hn : 1 ≤ vldCount (pixelObs bands P d a)) :
    (pixelStatsValid bands P d a).q3 =
      F.fin ((sortValids (pixelObs bands P d a)).getD
        (q2Rank (vldCount (pixelObs bands P d a)) +
          q1Rank (vldCount (pixelObs bands P d a))).toNat 0) := by
  simp only [pixelStatsValid]
  refine sortObs_getD_lt ?_
  have h1 := q1Rank_bounds hn
  have h2 := q2Rank_bounds hn
  omega

/-- Assembling a one-pixel block: `rows = cols = 1`. -/
theorem bulk_stats_one_pixel {bands : ℕ} {data : List F} {nd : Option ℚ}
    {dbl bip : Bool} {st : Stats}
    (h : pixelStatsCore bands 1 (maskData nd data) bip 0 = .ok st) :
    bulk_stats bands 1 1 data nd dbl bip = .ok (postData nd dbl data, [st]) := by
  simp only [bulk_stats]
  have e : (List.range (1 * 1)).map
      (fun a => pixelStatsCore bands (1 * 1) (maskData nd data) bip a) =
      [pixelStatsCore bands 1 (maskData nd data) bip 0] := rfl
  rw [e, h]
  rfl

/-- Assembling a (bands, 1, 2) block: two pixels. -/
theorem bulk_stats_two_pixel {bands : ℕ} {data : List F} {nd : Option ℚ}
    {dbl bip : Bool} {s0 s1 : Stats}
    (h0 : pixelStatsCore bands 2 (maskData nd data) bip 0 = .ok s0)
    (h1 : pixelStatsCore bands 2 (maskData nd data) bip 1 = .ok s1) :
    bulk_stats bands 1 2 data nd dbl bip =
      .ok (postData nd dbl data, [s0, s1]) := by
  simp only [bulk_stats]
  have e : (List.range (1 * 2)).map
      (fun a => pixelStatsCore bands (1 * 2) (maskData nd data) bip a) =
      [pixelStatsCore bands 2 (maskData nd data) bip 0,
        pixelStatsCore bands 2 (maskData nd data) bip 1] := rfl
  rw [e, h0, h1]
  rfl

/-- C3: for every pixel with n ≥ 1 valid observations the median plane
holds an actual observed value: the element of the ascending sort of the
pixel's valid values at index (n-1)/2 for odd n and n/2 - 1 for even n
(the first of the two central elements, never their mean); in particular
the (4,1,1) block [1,2,3,4] yields sum 10, valid_count 4, mean 2.5,
median 2 (not 2.5), max 4, min 1. -/
theorem C3_median_selection :
    (∀ (bands rows cols : ℕ) (data : List F) (nd : Option ℚ) (dbl bip : Bool)
      (post : List F) (outs : List Stats) (a : ℕ),
      bulk_stats bands rows cols data nd dbl bip = .ok (post, outs) →
      a < rows * cols →
      1 ≤ vldCount (pixelObs bands (rows * cols) (maskData nd data) a) →
      ∃ m : ℚ, (outs.getD a default).median = F.fin m ∧
        m = (sortValids (pixelObs bands (rows * cols) (maskData nd data) a)).getD
          (if vldCount (pixelObs bands (rows * cols) (maskData nd data) a) % 2 = 1
           then (vldCount (pixelObs bands (rows * cols) (maskData nd data) a) - 1) / 2
           else vldCount (pixelObs bands (rows * cols) (maskData nd data) a) / 2 - 1) 0 ∧
        m ∈ finVals (pixelObs bands (rows * cols) (maskData nd data) a)) ∧
    (∃ post outs,
      bulk_stats 4 1 1 [F.fin 1, F.fin 2, F.fin 3, F.fin 4] none false false =
        .ok (post, outs) ∧
      (outs.getD 0 default).sum = F.fin 10 ∧
      (outs.getD 0 default).valid_count = F.fin 4 ∧
      (outs.getD 0 default).mean = F.fin (5/2) ∧
      (outs.getD 0 default).median = F.fin 2 ∧
      (outs.getD 0 default).median ≠ F.fin (5/2) ∧
      (outs.getD 0 default).max = F.fin 4 ∧
      (outs.getD 0 default).min = F.fin 1) := by
  constructor
  · intro bands rows cols data nd dbl bip post outs a hok ha hn
    have hpix := bulk_stats_pixel hok ha
    have h2 := pixelStatsCore_ok_of_valid bip ha hn
    rw [hpix] at h2
    have h3 := Except.ok.inj h2
    set obs := pixelObs bands (rows * cols) (maskData nd data) a with hobs
    set n := vldCount obs with hnn
    refine ⟨(sortValids obs).getD (q2Rank n).toNat 0, ?_, ?_, ?_⟩
    · rw [h3]
      exact pixelStatsValid_median hn
    · congr 1
      unfold q2Rank
      split <;> omega
    · have hlt : (q2Rank n).toNat < (sortValids obs).length := by
        rw [sortValids_length]
        have h := q2Rank_bounds hn
        omega
      rw [List.getD_eq_getElem _ _ hlt]
      exact (sortValids_perm obs).mem_iff.mp (List.getElem_mem hlt)
  · refine ⟨postData none false [F.fin 1, F.fin 2, F.fin 3, F.fin 4],
      [pixelStatsValid 4 1 [F.fin 1, F.fin 2, F.fin 3, F.fin 4] 0],
      bulk_stats_one_pixel (pixelStatsCore_ok_of_valid false (by norm_num) (by decide)),
      ?_, ?_, ?_, ?_, ?_, ?_, ?_⟩
    · show (pixelStatsValid 4 1 [F.fin 1, F.fin 2, F.fin 3, F.fin 4] 0).sum =
        F.fin 10
      simp only [pixelStatsValid]
      unfold nansum
      rw [show finVals (pixelObs 4 1 [F.fin 1, F.fin 2, F.fin 3, F.fin 4] 0) =
        [1, 2, 3, 4] from by decide]
      norm_num
    · show (pixelStatsValid 4 1 [F.fin 1, F.fin 2, F.fin 3, F.fin 4] 0).valid_count =
        F.fin 4
      simp only [pixelStatsValid]
      rw [show vldCount (pixelObs 4 1 [F.fin 1, F.fin 2, F.fin 3, F.fin 4] 0) = 4
        from by decide]
      norm_num
    · show (pixelStatsValid 4 1 [F.fin 1, F.fin 2, F.fin 3, F.fin 4] 0).mean =
        F.fin (5/2)
      simp only [pixelStatsValid]
      unfold nansum
      rw [show finVals (pixelObs 4 1 [F.fin 1, F.fin 2, F.fin 3, F.fin 4] 0) =
        [1, 2, 3, 4] from by decide,
        show vldCount (pixelObs 4 1 [F.fin 1, F.fin 2, F.fin 3, F.fin 4] 0) = 4
        from by decide]
      show F.div (F.fin (1 + (2 + (3 + (4 + 0))))) (F.fin ((4 : ℕ) : ℚ)) = _
      norm_num [F.div]
    · decide
    · have hm : (pixelStatsValid 4 1 [F.fin 1, F.fin 2, F.fin 3, F.fin 4] 0).median =
          F.fin 2 := by decide
      show (pixelStatsValid 4 1 [F.fin 1, F.fin 2, F.fin 3, F.fin 4] 0).median ≠
        F.fin (5/2)
      rw [hm]
      simp only [ne_eq, F.fin.injEq]
      norm_num
    · decide
    · decide

/-- C3 witness: the median law applied to the concrete (4,1,1) block
[1,2,3,4] at pixel 0 (n = 4, even, rank 1, median 2.0). -/
theorem C3_median_selection_witness :
    bulk_stats 4 1 1 [F.fin 1, F.fin 2, F.fin 3, F.fin 4] none false false =
      .ok (postData none false [F.fin 1, F.fin 2, F.fin 3, F.fin 4],
        [pixelStatsValid 4 1 [F.fin 1, F.fin 2, F.fin 3, F.fin 4] 0]) ∧
    0 < 1 * 1 ∧
    1 ≤ vldCount (pixelObs 4 (1 * 1)
      (maskData none [F.fin 1, F.fin 2, F.fin 3, F.fin 4]) 0) ∧
    (∃ m : ℚ,
      ([pixelStatsValid 4 1 [F.fin 1, F.fin 2, F.fin 3, F.fin 4] 0].getD 0
        default).median = F.fin m ∧
      m = (sortValids (pixelObs 4 (1 * 1)
          (maskData none [F.fin 1, F.fin 2, F.fin 3, F.fin 4]) 0)).getD
        (if vldCount (pixelObs 4 (1 * 1)
            (maskData none [F.fin 1, F.fin 2, F.fin 3, F.fin 4]) 0) % 2 = 1
         then (vldCount (pixelObs 4 (1 * 1)
            (maskData none [F.fin 1, F.fin 2, F.fin 3, F.fin 4]) 0) - 1) / 2
         else vldCount (pixelObs 4 (1 * 1)
            (maskData none [F.fin 1, F.fin 2, F.fin 3, F.fin 4]) 0) / 2 - 1) 0 ∧
      m ∈ finVals (pixelObs 4 (1 * 1)
        (maskData none [F.fin 1, F.fin 2, F.fin 3, F.fin 4]) 0)) :=
  ⟨bulk_stats_one_pixel (pixelStatsCore_ok_of_valid false (by norm_num) (by decide)),
    by norm_num, by decide,
    C3_median_selection.1 4 1 1 [F.fin 1, F.fin 2, F.fin 3, F.fin 4] none
      false false
      (postData none false [F.fin 1, F.fin 2, F.fin 3, F.fin 4])
      [pixelStatsValid 4 1 [F.fin 1, F.fin 2, F.fin 3, F.fin 4] 0] 0
      (bulk_stats_one_pixel (pixelStatsCore_ok_of_valid false (by norm_num) (by decide)))
      (by norm_num) (by decide)⟩

/-- C4: for every pixel with valid observations, with q2_rank the median
rank, the q1 plane holds the non-interpolated element of the per-pixel
ascending sort at q1_rank = floor(length/2) + ((length mod 2) - 1) where
length = q2_rank + 1, and the q3 plane holds the element at
q2_rank + q1_rank of the same sorted sequence. -/
theorem C4_quartile_selection (bands rows cols : ℕ) (data : List F)
    (nd : Option ℚ) (dbl bip : Bool) (post : List F) (outs : List Stats)
    (a : ℕ) (hok : bulk_stats bands rows cols data nd dbl bip = .ok (post, outs))
    (ha : a < rows * cols)
    (hn : 1 ≤ vldCount (pixelObs bands (rows * cols) (maskData nd data) a)) :
    (outs.getD a default).median =
      F.fin ((sortValids (pixelObs bands (rows * cols) (maskData nd data) a)).getD
        (q2Rank (vldCount (pixelObs bands (rows * cols) (maskData nd data) a))).toNat 0) ∧
    (outs.getD a default).q1 =
      F.fin ((sortValids (pixelObs bands (rows * cols) (maskData nd data) a)).getD
        (((q2Rank (vldCount (pixelObs bands (rows * cols) (maskData nd data) a))).toNat + 1) / 2 +
          ((q2Rank (vldCount (pixelObs bands (rows * cols) (maskData nd data) a))).toNat + 1) % 2 - 1) 0) ∧
    (outs.getD a default).q3 =
      F.fin ((sortValids (pixelObs bands (rows * cols) (maskData nd data) a)).getD
        ((q2Rank (vldCount (pixelObs bands (rows * cols) (maskData nd data) a))).toNat +
          (((q2Rank (vldCount (pixelObs bands (rows * cols) (maskData nd data) a))).toNat + 1) / 2 +
            ((q2Rank (vldCount (pixelObs bands (rows * cols) (maskData nd data) a))).toNat + 1) % 2 - 1)) 0) := by
  have hpix := bulk_stats_pixel hok ha
  have h2 := pixelStatsCore_ok_of_valid bip ha hn
  rw [hpix] at h2
  have h3 := Except.ok.inj h2
  set obs := pixelObs bands (rows * cols) (maskData nd data) a with hobs
  set n := vldCount obs with hnn
  have hq2 := q2Rank_bounds hn
  have hq1 := q1Rank_bounds hn
  have hrank1 : (q1Rank n).toNat =
      ((q2Rank n).toNat + 1) / 2 + ((q2Rank n).toNat + 1) % 2 - 1 := by
    unfold q1Rank q2Rank at *
    omega
  have hrank3 : (q2Rank n + q1Rank n).toNat =
      (q2Rank n).toNat + (q1Rank n).toNat := by
    omega
  refine ⟨?_, ?_, ?_⟩
  · rw [h3]
    exact pixelStatsValid_median hn
  · rw [h3, ← hrank1]
    exact pixelStatsValid_q1 hn
  · rw [h3, ← hrank1, ← hrank3]
    exact pixelStatsValid_q3 hn

/-- C4 witness: the quartile law applied to the concrete (4,1,1) block
[1,2,3,4] at pixel 0 (q2_rank 1, length 2, q1_rank 0: q1 = 1.0, q3 = 2.0). -/
theorem C4_quartile_selection_witness :
    bulk_stats 4 1 1 [F.fin 1, F.fin 2, F.fin 3, F.fin 4] none false false =
      .ok (postData none false [F.fin 1, F.fin 2, F.fin 3, F.fin 4],
        [pixelStatsValid 4 1 [F.fin 1, F.fin 2, F.fin 3, F.fin 4] 0]) ∧
    0 < 1 * 1 ∧
    1 ≤ vldCount (pixelObs 4 (1 * 1)
      (maskData none [F.fin 1, F.fin 2, F.fin 3, F.fin 4]) 0) ∧
    (([pixelStatsValid 4 1 [F.fin 1, F.fin 2, F.fin 3, F.fin 4] 0].getD 0
        default).median =
      F.fin ((sortValids (pixelObs 4 (1 * 1)
        (maskData none [F.fin 1, F.fin 2, F.fin 3, F.fin 4]) 0)).getD
        (q2Rank (vldCount (pixelObs 4 (1 * 1)
          (maskData none [F.fin 1, F.fin 2, F.fin 3, F.fin 4]) 0))).toNat 0) ∧
    ([pixelStatsValid 4 1 [F.fin 1, F.fin 2, F.fin 3, F.fin 4] 0].getD 0
        default).q1 =
      F.fin ((sortValids (pixelObs 4 (1 * 1)
        (maskData none [F.fin 1, F.fin 2, F.fin 3, F.fin 4]) 0)).getD
        (((q2Rank (vldCount (pixelObs 4 (1 * 1)
          (maskData none [F.fin 1, F.fin 2, F.fin 3, F.fin 4]) 0))).toNat + 1) / 2 +
          ((q2Rank (vldCount (pixelObs 4 (1 * 1)
            (maskData none [F.fin 1, F.fin 2, F.fin 3, F.fin 4]) 0))).toNat + 1) % 2 - 1) 0) ∧
    ([pixelStatsValid 4 1 [F.fin 1, F.fin 2, F.fin 3, F.fin 4] 0].getD 0
        default).q3 =
      F.fin ((sortValids (pixelObs 4 (1 * 1)
        (maskData none [F.fin 1, F.fin 2, F.fin 3, F.fin 4]) 0)).getD
        ((q2Rank (vldCount (pixelObs 4 (1 * 1)
          (maskData none [F.fin 1, F.fin 2, F.fin 3, F.fin 4]) 0))).toNat +
          (((q2Rank (vldCount (pixelObs 4 (1 * 1)
            (maskData none [F.fin 1, F.fin 2, F.fin 3, F.fin 4]) 0))).toNat + 1) / 2 +
            ((q2Rank (vldCount (pixelObs 4 (1 * 1)
              (maskData none [F.fin 1, F.fin 2, F.fin 3, F.fin 4]) 0))).toNat + 1) % 2 - 1)) 0)) :=
  ⟨bulk_stats_one_pixel (pixelStatsCore_ok_of_valid false (by norm_num) (by decide)),
    by norm_num, by decide,
    C4_quartile_selection 4 1 1 [F.fin 1, F.fin 2, F.fin 3, F.fin 4] none
      false false
      (postData none false [F.fin 1, F.fin 2, F.fin 3, F.fin 4])
      [pixelStatsValid 4 1 [F.fin 1, F.fin 2, F.fin 3, F.fin 4] 0] 0
      (bulk_stats_one_pixel (pixelStatsCore_ok_of_valid false (by norm_num) (by decide)))
      (by norm_num) (by decide)⟩

theorem nansum_cons {l : List F} {q : ℚ} {qs : List ℚ}
    (h : finVals l = q :: qs) : nansum l = F.fin (q + qs.sum) := by
  unfold nansum
  rw [h]

/-- C5 counterexample: `bulk_stats` mutates its input: with `double=False`
the (2,1,1) block `[NaN, 2.0]` ends the call as `[1.0, 2.0]` — the
geometric-mean step overwrites non-finite elements with 1 in place. -/
theorem C5_counterexample :
    (∃ outs, bulk_stats 2 1 1 [F.nan, F.fin 2] none false false =
      .ok ([F.fin 1, F.fin 2], outs)) ∧
    [F.fin 1, F.fin 2] ≠ [F.nan, F.fin 2] := by
  constructor
  · refine ⟨[pixelStatsValid 2 1 [F.nan, F.fin 2] 0], ?_⟩
    have h : bulk_stats 2 1 1 [F.nan, F.fin 2] none false false =
        .ok (postData none false [F.nan, F.fin 2],
          [pixelStatsValid 2 1 [F.nan, F.fin 2] 0]) :=
      bulk_stats_one_pixel
        (pixelStatsCore_ok_of_valid false (by norm_num) (by decide))
    rw [show postData none false [F.nan, F.fin 2] = [F.fin 1, F.fin 2]
      from by decide] at h
    exact h
  · decide

/-- C5 (amended): `bulk_stats` mutates the caller's array in place when
`double=False`: elements equal to a truthy no-data value and non-finite
elements are overwritten with 1 (via the intermediate NaN marking);
when `double=True` a float64 copy is taken first and the caller's array is
returned unchanged; a `double=False` call on an all-finite array with no
no-data value also leaves the input unchanged. -/
theorem C5_input_mutation_amended (bands rows cols : ℕ) (data : List F)
    (nd : Option ℚ) (dbl bip : Bool) (post : List F) (outs : List Stats)
    (hok : bulk_stats bands rows cols data nd dbl bip = .ok (post, outs)) :
    (dbl = true → post = data) ∧
    (dbl = false →
      post = (maskData nd data).map (fun x => if x.isFin then x else F.fin 1)) ∧
    (dbl = false → nd = none → (∀ x ∈ data, x.isFin = true) → post = data) := by
  obtain ⟨-, hpost⟩ := bulk_stats_ok_parts hok
  refine ⟨?_, ?_, ?_⟩
  · intro h
    rw [hpost, h]
    rfl
  · intro h
    rw [hpost, h]
    rfl
  · intro h hnd hall
    rw [hpost, h, hnd]
    show (maskData none data).map (fun x => if x.isFin then x else F.fin 1) = data
    rw [maskData_none]
    have hcong : ∀ x ∈ data, (if x.isFin then x else F.fin 1) = id x := by
      intro x hx
      rw [hall x hx]
      rfl
    rw [List.map_congr_left hcong, List.map_id]

/-- C5 witness: the mutation characterization at the concrete (2,1,1)
block `[NaN, 2.0]` with `double=False`. -/
theorem C5_input_mutation_amended_witness :
    bulk_stats 2 1 1 [F.nan, F.fin 2] none false false =
      .ok (postData none false [F.nan, F.fin 2],
        [pixelStatsValid 2 1 [F.nan, F.fin 2] 0]) ∧
    ((false = true → postData none false [F.nan, F.fin 2] = [F.nan, F.fin 2]) ∧
      (false = false → postData none false [F.nan, F.fin 2] =
        (maskData none [F.nan, F.fin 2]).map
          (fun x => if x.isFin then x else F.fin 1)) ∧
      (false = false → (none : Option ℚ) = none →
        (∀ x ∈ [F.nan, F.fin 2], x.isFin = true) →
        postData none false [F.nan, F.fin 2] = [F.nan, F.fin 2])) :=
  ⟨bulk_stats_one_pixel (pixelStatsCore_ok_of_valid false (by norm_num) (by decide)),
    C5_input_mutation_amended 2 1 1 [F.nan, F.fin 2] none false false
      (postData none false [F.nan, F.fin 2])
      [pixelStatsValid 2 1 [F.nan, F.fin 2] 0]
      (bulk_stats_one_pixel (pixelStatsCore_ok_of_valid false (by norm_num) (by decide)))⟩

/-- C6 counterexample: with the sentinel 0, `if no_data:` is false
(Python truthiness), so an element equal to the sentinel is NOT converted
to missing: the (4,1,1) block [1, 0, 3, 4] with no_data = 0 yields
valid_count 4, not 3. -/
theorem C6_counterexample :
    ∃ post outs,
      bulk_stats 4 1 1 [F.fin 1, F.fin 0, F.fin 3, F.fin 4] (some 0)
        false false = .ok (post, outs) ∧
      (outs.getD 0 default).valid_count = F.fin 4 ∧
      F.fin (4 : ℚ) ≠ F.fin (3 : ℚ) := by
  refine ⟨postData (some 0) false [F.fin 1, F.fin 0, F.fin 3, F.fin 4],
    [pixelStatsValid 4 1
      (maskData (some 0) [F.fin 1, F.fin 0, F.fin 3, F.fin 4]) 0],
    bulk_stats_one_pixel (pixelStatsCore_ok_of_valid false (by norm_num) (by decide)),
    ?_, ?_⟩
  · show (pixelStatsValid 4 1
      (maskData (some 0) [F.fin 1, F.fin 0, F.fin 3, F.fin 4]) 0).valid_count =
        F.fin 4
    simp only [pixelStatsValid]
    rw [show vldCount (pixelObs 4 1
      (maskData (some 0) [F.fin 1, F.fin 0, F.fin 3, F.fin 4]) 0) = 4
      from by decide]
    norm_num
  · simp only [ne_eq, F.fin.injEq]
    norm_num

/-- C6 (amended): for every truthy (non-zero, non-None) no-data sentinel,
`bulk_stats` first converts every element equal to the sentinel to NaN, so
the statistics equal those of the pre-masked block with no sentinel (a
sentinel of 0 is ignored by the truthiness test); concretely, the (4,1,1)
block [1, NODATA, 3, 4] with NODATA = 999 yields valid_count 3, sum 8,
mean 8/3 and variance 7/3 (divisor 2). -/
theorem C6_no_data_masking_amended :
    (∀ (bands rows cols : ℕ) (data : List F) (dbl bip : Bool) (v : ℚ),
      v ≠ 0 →
      Except.map Prod.snd (bulk_stats bands rows cols data (some v) dbl bip) =
        Except.map Prod.snd (bulk_stats bands rows cols
          (data.map (fun x => if x = F.fin v then F.nan else x)) none dbl bip)) ∧
    (∃ post outs,
      bulk_stats 4 1 1 [F.fin 1, F.fin 999, F.fin 3, F.fin 4] (some 999)
        false false = .ok (post, outs) ∧
      (outs.getD 0 default).valid_count = F.fin 3 ∧
      (outs.getD 0 default).sum = F.fin 8 ∧
      (outs.getD 0 default).mean = F.fin (8/3) ∧
      (outs.getD 0 default).variance = F.fin (7/3)) := by
  constructor
  · intro bands rows cols data dbl bip v hv
    have e1 : maskData (some v) data =
        data.map (fun x => if x = F.fin v then F.nan else x) := by
      simp only [maskData]
      rw [if_neg hv]
    simp only [bulk_stats, e1, maskData_none]
    cases collect ((List.range (rows * cols)).map
      (fun a => pixelStatsCore bands (rows * cols)
        (data.map (fun x => if x = F.fin v then F.nan else x)) bip a)) <;> rfl
  · refine ⟨postData (some 999) false [F.fin 1, F.fin 999, F.fin 3, F.fin 4],
      [pixelStatsValid 4 1
        (maskData (some 999) [F.fin 1, F.fin 999, F.fin 3, F.fin 4]) 0],
      bulk_stats_one_pixel (pixelStatsCore_ok_of_valid false (by norm_num) (by decide)),
      ?_⟩
    rw [show maskData (some 999) [F.fin 1, F.fin 999, F.fin 3, F.fin 4] =
      [F.fin 1, F.nan, F.fin 3, F.fin 4] from by decide]
    have hfv : finVals (pixelObs 4 1 [F.fin 1, F.nan, F.fin 3, F.fin 4] 0) =
        [1, 3, 4] := by decide
    have hvc : vldCount (pixelObs 4 1 [F.fin 1, F.nan, F.fin 3, F.fin 4] 0) = 3 := by
      decide
    have hsum : nansum (pixelObs 4 1 [F.fin 1, F.nan, F.fin 3, F.fin 4] 0) =
        F.fin 8 := by
      rw [nansum_cons hfv]
      norm_num
    have hmean : (nansum (pixelObs 4 1 [F.fin 1, F.nan, F.fin 3, F.fin 4] 0)).div
        (F.fin ((vldCount (pixelObs 4 1 [F.fin 1, F.nan, F.fin 3, F.fin 4] 0) : ℕ) : ℚ)) =
        F.fin (8/3) := by
      rw [hsum, hvc]
      show F.div _ _ = _
      norm_num [F.div]
    refine ⟨?_, ?_, ?_, ?_⟩
    · show (pixelStatsValid 4 1 [F.fin 1, F.nan, F.fin 3, F.fin 4] 0).valid_count = _
      simp only [pixelStatsValid]
      rw [hvc]
      norm_num
    · show (pixelStatsValid 4 1 [F.fin 1, F.nan, F.fin 3, F.fin 4] 0).sum = _
      simp only [pixelStatsValid]
      exact hsum
    · show (pixelStatsValid 4 1 [F.fin 1, F.nan, F.fin 3, F.fin 4] 0).mean = _
      simp only [pixelStatsValid]
      exact hmean
    · show (pixelStatsValid 4 1 [F.fin 1, F.nan, F.fin 3, F.fin 4] 0).variance = _
      simp only [pixelStatsValid]
      rw [hmean]
      have hres : finVals ((pixelObs 4 1 [F.fin 1, F.nan, F.fin 3, F.fin 4] 0).map
          (fun x => x.sub (F.fin (8/3)))) = [1 - 8/3, 3 - 8/3, 4 - 8/3] := by
        rw [finVals_map (g := fun q => q - 8/3) rfl (fun q => rfl), hfv]
        rfl
      have hsq : finVals (((pixelObs 4 1 [F.fin 1, F.nan, F.fin 3, F.fin 4] 0).map
          (fun x => x.sub (F.fin (8/3)))).map (fun r => r.mul r)) =
          [(1 - 8/3) * (1 - 8/3), (3 - 8/3) * (3 - 8/3), (4 - 8/3) * (4 - 8/3)] := by
        rw [finVals_map (g := fun q => q * q) rfl (fun q => rfl), hres]
        rfl
      rw [nansum_cons hsq, hvc]
      show F.div (F.fin _) (F.sub _ _) = _
      norm_num [F.div, F.sub]

/-- C6 witness: the masking law applied to the (2,1,1) block [5, 7] with
sentinel 5. -/
theorem C6_no_data_masking_amended_witness :
    (5 : ℚ) ≠ 0 ∧
    Except.map Prod.snd
      (bulk_stats 2 1 1 [F.fin 5, F.fin 7] (some 5) false false) =
      Except.map Prod.snd (bulk_stats 2 1 1
        ([F.fin 5, F.fin 7].map (fun x => if x = F.fin 5 then F.nan else x))
        none false false) :=
  ⟨by norm_num,
    C6_no_data_masking_amended.1 2 1 1 [F.fin 5, F.fin 7] false false 5
      (by norm_num)⟩

/-- C7 counterexample: the two layout paths are not observationally
equivalent: for the (2,1,2) block with pixel 0 all-missing and pixel 1
holding [5, 7], the all-missing pixel's median is NaN on the `[z,y,x]`
path but 7.0 on the transposed path — the negative-index wrap lands in a
different pixel's data in the transposed flat layout. -/
theorem C7_counterexample :
    ∃ p1 o1 p2 o2,
      bulk_stats 2 1 2 [F.nan, F.fin 5, F.nan, F.fin 7] none false true =
        .ok (p1, o1) ∧
      bulk_stats 2 1 2 [F.nan, F.fin 5, F.nan, F.fin 7] none false false =
        .ok (p2, o2) ∧
      (o1.getD 0 default).median = F.fin 7 ∧
      (o2.getD 0 default).median = F.nan ∧
      (o1.getD 0 default).median ≠ (o2.getD 0 default).median := by
  refine ⟨postData none false [F.nan, F.fin 5, F.nan, F.fin 7],
    [⟨F.nan, F.nan, F.fin 0, F.nan, SF.nan, KF.nan, F.nan, F.nan, F.nan,
      F.fin 7, F.fin 1, F.fin 7, F.fin 5, GF.nan⟩,
      pixelStatsValid 2 2 [F.nan, F.fin 5, F.nan, F.fin 7] 1],
    postData none false [F.nan, F.fin 5, F.nan, F.fin 7],
    [⟨F.nan, F.nan, F.fin 0, F.nan, SF.nan, KF.nan, F.nan, F.nan, F.nan,
      F.nan, F.fin 1, F.nan, F.nan, GF.nan⟩,
      pixelStatsValid 2 2 [F.nan, F.fin 5, F.nan, F.fin 7] 1],
    bulk_stats_two_pixel (by decide)
      (pixelStatsCore_ok_of_valid true (by norm_num) (by decide)),
    bulk_stats_two_pixel (by decide)
      (pixelStatsCore_ok_of_valid false (by norm_num) (by decide)),
    rfl, rfl, by decide⟩

/-- C7 (amended): the two axis-layout code paths agree whenever every
pixel has at least one valid observation (all rank lookups then stay
inside the pixel in both flat layouts); they differ on blocks containing
an all-missing pixel. -/
theorem C7_layout_equivalence_amended (bands rows cols : ℕ) (data : List F)
    (nd : Option ℚ) (dbl : Bool)
    (h : ∀ a, a < rows * cols →
      1 ≤ vldCount (pixelObs bands (rows * cols) (maskData nd data) a)) :
    bulk_stats bands rows cols data nd dbl true =
      bulk_stats bands rows cols data nd dbl false := by
  simp only [bulk_stats]
  have e : (List.range (rows * cols)).map
      (fun a => pixelStatsCore bands (rows * cols) (maskData nd data) true a) =
      (List.range (rows * cols)).map
      (fun a => pixelStatsCore bands (rows * cols) (maskData nd data) false a) := by
    apply List.map_congr_left
    intro a ha
    rw [List.mem_range] at ha
    rw [pixelStatsCore_ok_of_valid true ha (h a ha),
      pixelStatsCore_ok_of_valid false ha (h a ha)]
  rw [e]

/-- C7 witness: the layout equivalence applied to the all-valid (1,1,1)
block [3.0]. -/
theorem C7_layout_equivalence_amended_witness :
    (∀ a, a < 1 * 1 →
      1 ≤ vldCount (pixelObs 1 (1 * 1) (maskData none [F.fin 3]) a)) ∧
    bulk_stats 1 1 1 [F.fin 3] none false true =
      bulk_stats 1 1 1 [F.fin 3] none false false :=
  ⟨by decide,
    C7_layout_equivalence_amended 1 1 1 [F.fin 3] none false (by decide)⟩

end EoTools
